import Mathlib

/-!
Verification development for the gotenable paginated iterator and export
polling core (package `base` iterator plus `pkg/tio` exports, shallowly
embedded from the Go source).

Machine integers of the source (`int`) are modelled as `Int`; Go slices as
`List`; fallible calls as `Except Err`; the mutable closure state of the
stateful export fetch functions as an explicit state value threaded through
each call.  Backend network calls (transport layer, out of scope for the
core) are parameters: functions indexed by the call number, so that every
possible backend behaviour is a choice of those parameters.
-/
namespace Gotenable

/-- Error values of the embedding.  Constructors mirror the error kinds of
`pkg/base/errors.go` that the core can produce or observe:
`apiError` stands for an opaque transport/API failure (`*APIError` etc.),
`validationError` for `base.ValidationError{Field, Message}`,
`exportError` for `base.ExportError{ExportType, UUID, Message}`,
`canceled`/`deadlineExceeded` for the two `ctx.Err()` sentinel values, and
`transform` for the wrapping `fmt.Errorf("failed to transform page data: %w", err)`
applied by `Iterator.fetchNextPage`. -/
inductive Err where
  | apiError : Nat → Err
  | validationError : String → String → Err
  | exportError : String → String → String → Err
  | canceled : Err
  | deadlineExceeded : Err
  | transform : Err → Err
  deriving DecidableEq, Repr

/-- PaginationInfo mirrors `base.PaginationInfo`: pagination metadata from
API responses, fields `Total`, `Limit`, `Offset` (Go `int`). -/
structure PaginationInfo where
  total : Int
  limit : Int
  offset : Int
  deriving DecidableEq, Repr

/-- Iterator mirrors `base.Iterator[T]`.  The Go struct holds a `ctx`, a
`fetcher` closure (possibly stateful) and a `transformer`; here the fetcher's
captured mutable state is the explicit `fetchState : FS`, and the fetcher
returns its new state alongside the result.  `R` is the raw page type
(`json.RawMessage` in Go).  `current` is an `Option` because the Go field
holds a meaningless zero value before the first successful `Next`. -/
structure Iterator (R T FS : Type) where
  fetchState : FS
  fetcher : FS → Int → Int → Except Err (R × Option PaginationInfo) × FS
  transformer : R → Except Err (List T)
  limit : Int
  offset : Int
  total : Int
  page : List T
  pageIndex : Nat
  count : Int
  maxPages : Int
  pagesLoaded : Int
  done : Bool
  err : Option Err
  current : Option T

/-- IteratorOption mirrors `base.IteratorOption[T]`: a mutation applied to
the freshly constructed iterator. -/
def IteratorOption (R T FS : Type) := Iterator R T FS → Iterator R T FS

/-- WithLimit mirrors `base.WithLimit`: sets the page size limit. -/
def WithLimit (l : Int) : IteratorOption R T FS := fun it => { it with limit := l }

/-- WithOffset mirrors `base.WithOffset`: sets the starting offset. -/
def WithOffset (o : Int) : IteratorOption R T FS := fun it => { it with offset := o }

/-- WithMaxPages mirrors `base.WithMaxPages`: sets the page cap. -/
def WithMaxPages (m : Int) : IteratorOption R T FS := fun it => { it with maxPages := m }

/-- NewIterator mirrors `base.NewIterator`: defaults `limit = 100`,
`offset = 0`, `total = -1` (unknown until first fetch), `maxPages = 0`
(no cap), then applies the options in order.  Note the Go constructor
performs no argument validation and cannot fail. -/
def NewIterator (fetcher : FS → Int → Int → Except Err (R × Option PaginationInfo) × FS)
    (fs0 : FS) (transformer : R → Except Err (List T))
    (opts : List (IteratorOption R T FS)) : Iterator R T FS :=
  opts.foldl (fun it opt => opt it)
    { fetchState := fs0
      fetcher := fetcher
      transformer := transformer
      limit := 100
      offset := 0
      total := -1
      page := []
      pageIndex := 0
      count := 0
      maxPages := 0
      pagesLoaded := 0
      done := false
      err := none
      current := none }

/-- fetchNextPage mirrors `base.Iterator.fetchNextPage` line by line:
page-cap check, already-fetched-everything check (`total >= 0 && offset >= total`),
fetch, unconditional `total = pagination.Total` when pagination is non-nil,
transform (wrapping a failure), zero-items-means-done, then install the new
page, advance `offset` by the number of items actually returned, and yield
the first item of the page. -/
def fetchNextPage (it : Iterator R T FS) : Bool × Iterator R T FS :=
  if 0 < it.maxPages ∧ it.pagesLoaded ≥ it.maxPages then
    (false, { it with done := true })
  else if 0 ≤ it.total ∧ it.offset ≥ it.total then
    (false, { it with done := true })
  else
    match it.fetcher it.fetchState it.offset it.limit with
    | (Except.error e, fs) => (false, { it with fetchState := fs, err := some e })
    | (Except.ok (data, pagination), fs) =>
      let it1 : Iterator R T FS :=
        { it with
          fetchState := fs
          total := match pagination with
            | some p => p.total
            | none => it.total }
      match it1.transformer data with
      | Except.error e => (false, { it1 with err := some (Err.transform e) })
      | Except.ok items =>
        if items.length = 0 then
          (false, { it1 with done := true })
        else
          (true,
            { it1 with
              page := items
              pageIndex := 1
              offset := it1.offset + items.length
              pagesLoaded := it1.pagesLoaded + 1
              current := items[0]?
              count := it1.count + 1 })

/-- next mirrors `base.Iterator.Next`: returns immediately when done or an
error is recorded, terminates when the known total has been consumed
(`total >= 0 && count >= total`), fetches when the current page is
exhausted, and otherwise yields the next item of the page. -/
def next (it : Iterator R T FS) : Bool × Iterator R T FS :=
  if it.done ∨ it.err.isSome then
    (false, it)
  else if 0 ≤ it.total ∧ it.count ≥ it.total then
    (false, { it with done := true })
  else if it.pageIndex ≥ it.page.length then
    fetchNextPage it
  else
    (true,
      { it with
        current := it.page[it.pageIndex]?
        pageIndex := it.pageIndex + 1
        count := it.count + 1 })

/-- drain is the consumption harness: the Go loop `for it.Next() { use it.Item() }`,
bounded by explicit fuel (one unit per `Next` call) because the Go loop has no
syntactic bound.  It collects the `current` item of every successful `Next`
and stops at the first `false`, returning the final iterator state.  The
`none` fallback is unreachable: a successful `Next` always sets `current`. -/
def drain (fuel : Nat) (it : Iterator R T FS) : List T × Iterator R T FS :=
  match fuel with
  | 0 => ([], it)
  | fuel + 1 =>
    match next it with
    | (false, it') => ([], it')
    | (true, it') =>
      match it'.current with
      | some x =>
        let (xs, itf) := drain fuel it'
        (x :: xs, itf)
      | none => ([], it')

/-- All mirrors `base.Iterator.All`: loop `Next`/`Item` to the end, and if an
error was recorded return `nil` together with the error, discarding the
accumulated items; otherwise return the items.  The fuel bounds the
unbounded Go loop exactly as in `drain`. -/
def All (fuel : Nat) (it : Iterator R T FS) : Except Err (List T) × Iterator R T FS :=
  let (ys, fi) := drain fuel it
  match fi.err with
  | some e => (Except.error e, fi)
  | none => (Except.ok ys, fi)

/-- Take mirrors `base.Iterator.Take`: `for i := 0; i < n && it.Next(); i++`
collects up to `n` items — which is precisely `drain` with fuel `n` — then
applies the same return-nil-on-error policy as `All`.  A non-positive `n`
runs zero iterations. -/
def Take (n : Int) (it : Iterator R T FS) : Except Err (List T) × Iterator R T FS :=
  let (ys, fi) := drain n.toNat it
  match fi.err with
  | some e => (Except.error e, fi)
  | none => (Except.ok ys, fi)

/-! ### Test fetchers

The claims quantify over fetch functions of particular shapes.  Two
families cover them: a scripted fetcher whose `n`-th invocation returns the
`n`-th entry of an arbitrary script (the fully general stateful fetcher —
its state is the log of `(offset, limit)` arguments received so far), and
the fixed-collection slice fetcher of the spec's P1/P3 properties. -/

/-- scriptFetcher: a fetcher whose state is the log of calls made so far and
whose `n`-th call returns `script n`, recording the arguments it received. -/
def scriptFetcher (script : Nat → Except Err (R × Option PaginationInfo)) :
    List (Int × Int) → Int → Int → Except Err (R × Option PaginationInfo) × List (Int × Int) :=
  fun log offset limit => (script log.length, log ++ [(offset, limit)])

/-- scriptIter: an iterator over a scripted fetcher whose raw pages are
already item lists and whose transformer is the identity decode. -/
def scriptIter (script : Nat → Except Err (List T × Option PaginationInfo))
    (opts : List (IteratorOption (List T) T (List (Int × Int)))) :
    Iterator (List T) T (List (Int × Int)) :=
  NewIterator (scriptFetcher script) [] Except.ok opts

/-- pagesOf: the items a single scripted fetch outcome carries (none for a
fetch error). -/
def pagesOf (r : Except Err (List T × Option PaginationInfo)) : List T :=
  match r with
  | Except.ok (l, _) => l
  | Except.error _ => []

/-- scriptJoin: concatenation of the items of the first `n` scripted fetch
outcomes, in call order. -/
def scriptJoin (script : Nat → Except Err (List T × Option PaginationInfo)) (n : Nat) : List T :=
  ((List.range n).map (fun i => pagesOf (script i))).flatten

/-- sliceFetcher: the fixed-collection fetch function of the claims — it
serves the items at positions `[offset, min (offset + limit) N)` of `src`
and always reports `total = N`.  It is stateless (state `Unit`). -/
def sliceFetcher (src : List T) :
    Unit → Int → Int → Except Err (List T × Option PaginationInfo) × Unit :=
  fun _ offset limit =>
    (Except.ok ((src.drop offset.toNat).take limit.toNat,
        some ⟨(src.length : Int), limit, offset⟩), ())

/-- sliceIter: an iterator over the fixed collection `src`. -/
def sliceIter (src : List T) (opts : List (IteratorOption (List T) T Unit)) :
    Iterator (List T) T Unit :=
  NewIterator (sliceFetcher src) () Except.ok opts

/-! ### Export polling model (`pkg/tio` exports, src/unnamed/part_006)

`ExportStatus` keeps the two fields the core logic reads (`Status`,
`ChunksAvailable`); the remaining Go fields are unread metadata.  The
remote backend is a parameter `ExportBackend`: each operation is a function
of the call number (submit, wait) or of its arguments (chunk download), so
an arbitrary backend behaviour is a choice of these functions.  Real time
is abstracted to poll ticks; the caller's context is the function saying
whether (and with which `ctx.Err()` value) cancellation has fired at a
given tick. -/

/-- ExportStatus mirrors `tio.ExportStatus` restricted to the fields the
core reads: `Status` and the ordered `ChunksAvailable` list. -/
structure ExportStatus where
  status : String
  chunksAvailable : List Int
  deriving DecidableEq, Repr

/-- waitForExportLoop embeds the polling loop of `ExportsAPI.WaitForExport`:
each iteration dispatches on the export type (an unknown type yields
`base.ValidationError`), polls the status endpoint (a transport error is
propagated verbatim), returns the status on `FINISHED`, fails with
`base.ExportError` on `CANCELLED` (`"export cancelled"`) or `ERROR`
(`"export failed"`), and otherwise waits one tick, returning `ctx.Err()` if
the caller's context is done at that tick.  `k` is the current tick and the
fuel bounds the unbounded Go loop: `none` means the loop was still running
after `fuel` iterations. -/
def waitForExportLoop (exportType uuid : String)
    (poll : Nat → Except Err ExportStatus)
    (ctxDone : Nat → Option Err) : Nat → Nat → Option (Except Err ExportStatus)
  | _, 0 => none
  | k, fuel + 1 =>
    if exportType = "assets" ∨ exportType = "vulns" ∨ exportType = "compliance" then
      match poll k with
      | Except.error e => some (Except.error e)
      | Except.ok status =>
        if status.status = "FINISHED" then
          some (Except.ok status)
        else if status.status = "CANCELLED" then
          some (Except.error (Err.exportError exportType uuid "export cancelled"))
        else if status.status = "ERROR" then
          some (Except.error (Err.exportError exportType uuid "export failed"))
        else
          match ctxDone k with
          | some ce => some (Except.error ce)
          | none => waitForExportLoop exportType uuid poll ctxDone (k + 1) fuel
    else
      some (Except.error (Err.validationError "exportType" "invalid export type"))

/-- WaitForExport mirrors `ExportsAPI.WaitForExport` from tick 0.  The
`pollInterval` argument (with its `0 ↦ 5s` defaulting) only sets the real
duration of one tick and has no effect on the tick-level outcome, so it is
carried but unused. -/
def WaitForExport (exportType uuid : String) (_pollInterval : Nat)
    (poll : Nat → Except Err ExportStatus) (ctxDone : Nat → Option Err)
    (fuel : Nat) : Option (Except Err ExportStatus) :=
  waitForExportLoop exportType uuid poll ctxDone 0 fuel

/-- ExportBackend: the three remote operations the export fetch functions
consume, plus the chunk decoding.  `submit` and `wait` are indexed by how
many times they have been called before (so a backend may answer each call
differently); `wait` stands for the completed outcome of the whole
`WaitForExport` poll, `chunk` for `AssetsExportChunk`/`VulnsExportChunk`
followed by `io.ReadAll`, `decode` for `json.Unmarshal` into the item
slice, and `emptyRaw` for the literal `json.RawMessage("[]")` (so
`decode emptyRaw = ok []` for a faithful backend). -/
structure ExportBackend (R T : Type) where
  submit : Nat → Except Err String
  wait : Nat → Except Err ExportStatus
  chunk : String → Int → Except Err R
  decode : R → Except Err (List T)
  emptyRaw : R

/-- ExportFetchState: the mutable closure state of the export fetch
functions (`exportUUID`, `status`, `currentChunk` in the Go source), plus
call-counting instrumentation (`submitCalls`, `waitCalls`, `chunkCalls`)
that records how often each backend operation was invoked and which chunk
identifiers were requested, in order.  The counters only observe the
behaviour; no branch reads them except as call-number indices. -/
structure ExportFetchState where
  exportUUID : String
  status : Option ExportStatus
  currentChunk : Int
  submitCalls : Nat
  waitCalls : Nat
  chunkCalls : List Int
  deriving DecidableEq, Repr

/-- initExportState: the zero values of the captured variables at the time
`AssetsIterator`/`VulnsIterator` builds its fetch closure. -/
def initExportState : ExportFetchState := ⟨"", none, 0, 0, 0, []⟩

/-- assetsFetchChunks embeds the chunk-streaming tail of the
`AssetsIterator` fetch closure: when `currentChunk` has passed the end of
`ChunksAvailable` it reports the `"[]"` page with `PaginationInfo{Total: 0}`;
otherwise it downloads the chunk `ChunksAvailable[currentChunk]`, validates
it with `json.Unmarshal` (the assets closure unmarshals into its local
`chunkData` before returning), advances `currentChunk`, and returns the raw
data with `PaginationInfo{Total: len(ChunksAvailable)}`. -/
def assetsFetchChunks (b : ExportBackend R T) (st : ExportFetchState) (s : ExportStatus) :
    Except Err (R × Option PaginationInfo) × ExportFetchState :=
  if st.currentChunk ≥ (s.chunksAvailable.length : Int) then
    (Except.ok (b.emptyRaw, some ⟨0, 0, 0⟩), st)
  else
    let chunkID := (s.chunksAvailable[st.currentChunk.toNat]?).getD 0
    let st1 := { st with chunkCalls := st.chunkCalls ++ [chunkID] }
    match b.chunk st.exportUUID chunkID with
    | Except.error e => (Except.error e, st1)
    | Except.ok data =>
      match b.decode data with
      | Except.error e => (Except.error e, st1)
      | Except.ok _ =>
        (Except.ok (data, some ⟨(s.chunksAvailable.length : Int), 0, 0⟩),
          { st1 with currentChunk := st.currentChunk + 1 })

/-- assetsFetchReady embeds the `if status == nil` step of the
`AssetsIterator` fetch closure: wait for export readiness once, caching the
returned status; a wait failure is propagated and leaves `status` nil so a
later invocation waits again. -/
def assetsFetchReady (b : ExportBackend R T) (st : ExportFetchState) :
    Except Err (R × Option PaginationInfo) × ExportFetchState :=
  match st.status with
  | some s => assetsFetchChunks b st s
  | none =>
    let st1 := { st with waitCalls := st.waitCalls + 1 }
    match b.wait st.waitCalls with
    | Except.error e => (Except.error e, st1)
    | Except.ok s => assetsFetchChunks b { st1 with status := some s } s

/-- assetsFetcher embeds the full `AssetsIterator` fetch closure: the
`if exportUUID == ""` guard submits the export and records the returned
identifier (whatever it is), then defers to the readiness/chunk phases.
The closure ignores its `offset` and `limit` arguments. -/
def assetsFetcher (b : ExportBackend R T) :
    ExportFetchState → Int → Int → Except Err (R × Option PaginationInfo) × ExportFetchState :=
  fun st _offset _limit =>
    if st.exportUUID = "" then
      let st1 := { st with submitCalls := st.submitCalls + 1 }
      match b.submit st.submitCalls with
      | Except.error e => (Except.error e, st1)
      | Except.ok uuid => assetsFetchReady b { st1 with exportUUID := uuid }
    else
      assetsFetchReady b st

/-- AssetsIterator mirrors `ExportsAPI.AssetsIterator`: the iterator over
the stateful assets export fetcher, with the transformer being the same
`json.Unmarshal` decode the closure itself uses, and no options. -/
def AssetsIterator (b : ExportBackend R T) : Iterator R T ExportFetchState :=
  NewIterator (assetsFetcher b) initExportState b.decode []

/-- vulnsFetchChunks embeds the chunk-streaming tail of the `VulnsIterator`
fetch closure; identical to the assets one except that the vulns closure
does not unmarshal the chunk before returning it. -/
def vulnsFetchChunks (b : ExportBackend R T) (st : ExportFetchState) (s : ExportStatus) :
    Except Err (R × Option PaginationInfo) × ExportFetchState :=
  if st.currentChunk ≥ (s.chunksAvailable.length : Int) then
    (Except.ok (b.emptyRaw, some ⟨0, 0, 0⟩), st)
  else
    let chunkID := (s.chunksAvailable[st.currentChunk.toNat]?).getD 0
    let st1 := { st with chunkCalls := st.chunkCalls ++ [chunkID] }
    match b.chunk st.exportUUID chunkID with
    | Except.error e => (Except.error e, st1)
    | Except.ok data =>
      (Except.ok (data, some ⟨(s.chunksAvailable.length : Int), 0, 0⟩),
        { st1 with currentChunk := st.currentChunk + 1 })

/-- vulnsFetchReady: the wait-once step of the `VulnsIterator` fetch
closure. -/
def vulnsFetchReady (b : ExportBackend R T) (st : ExportFetchState) :
    Except Err (R × Option PaginationInfo) × ExportFetchState :=
  match st.status with
  | some s => vulnsFetchChunks b st s
  | none =>
    let st1 := { st with waitCalls := st.waitCalls + 1 }
    match b.wait st.waitCalls with
    | Except.error e => (Except.error e, st1)
    | Except.ok s => vulnsFetchChunks b { st1 with status := some s } s

/-- vulnsFetcher: the full `VulnsIterator` fetch closure. -/
def vulnsFetcher (b : ExportBackend R T) :
    ExportFetchState → Int → Int → Except Err (R × Option PaginationInfo) × ExportFetchState :=
  fun st _offset _limit =>
    if st.exportUUID = "" then
      let st1 := { st with submitCalls := st.submitCalls + 1 }
      match b.submit st.submitCalls with
      | Except.error e => (Except.error e, st1)
      | Except.ok uuid => vulnsFetchReady b { st1 with exportUUID := uuid }
    else
      vulnsFetchReady b st

/-- VulnsIterator mirrors `ExportsAPI.VulnsIterator`. -/
def VulnsIterator (b : ExportBackend R T) : Iterator R T ExportFetchState :=
  NewIterator (vulnsFetcher b) initExportState b.decode []

/-- scriptIterE: an iterator over a scripted fetcher whose raw page type is
itself an `Except` (so a script entry can make the transformer fail), with
the identity transformer. -/
def scriptIterE (script : Nat → Except Err (Except Err (List T) × Option PaginationInfo)) :
    Iterator (Except Err (List T)) T (List (Int × Int)) :=
  NewIterator (scriptFetcher script) [] (fun r => r) []

/-- outcomeErr: the error an `Iterator` records when its scripted fetch
outcome is consumed — a fetch error verbatim, a failing raw page wrapped by
`Err.transform`, and `none` for a decodable page. -/
def outcomeErr (r : Except Err (Except Err (List T) × Option PaginationInfo)) : Option Err :=
  match r with
  | Except.error e => some e
  | Except.ok (Except.error d, _) => some (Err.transform d)
  | Except.ok (Except.ok _, _) => none

/-! ### Basic step lemmas -/

/-! ### Concrete scripts, backends and states used by witnesses and counterexamples -/

/-- c2script: first page `[1, 2]` reporting `total = 10`, second page `[3]`
reporting `total = 1`, nothing afterwards. -/
def c2script : Nat → Except Err (List Nat × Option PaginationInfo) := fun n =>
  if n = 0 then Except.ok ([1, 2], some ⟨10, 2, 0⟩)
  else if n = 1 then Except.ok ([3], some ⟨1, 2, 2⟩)
  else Except.ok ([], none)

/-- c6script: a fetcher that always reports an empty page. -/
def c6script : Nat → Except Err (List Nat × Option PaginationInfo) := fun _ =>
  Except.ok ([], none)

/-- c8backend: a backend whose submission succeeds but returns the empty
string as export UUID, with a two-chunk ready status and one item per
chunk. -/
def c8backend : ExportBackend (List Nat) Nat where
  submit := fun _ => Except.ok ""
  wait := fun _ => Except.ok ⟨"FINISHED", [5, 6]⟩
  chunk := fun _ id => Except.ok [id.toNat]
  decode := fun l => Except.ok l
  emptyRaw := []

/-- c1backend: a backend with a single available chunk that decodes to two
items. -/
def c1backend : ExportBackend (List Nat) Nat where
  submit := fun _ => Except.ok "u"
  wait := fun _ => Except.ok ⟨"FINISHED", [1]⟩
  chunk := fun _ _ => Except.ok [10, 20]
  decode := fun l => Except.ok l
  emptyRaw := []

/-- fetchN: `n` successive invocations of a stateful fetch function, with
arbitrary offset/limit arguments per call, keeping only the final state. -/
def fetchN (f : FS → Int → Int → Except Err (R × Option PaginationInfo) × FS)
    (args : Nat → Int × Int) : Nat → FS → FS
  | 0, st => st
  | n + 1, st => (f (fetchN f args n st) (args n).1 (args n).2).2

/-- c8wbackend: a backend whose submission returns the non-empty
identifier `"w"`. -/
def c8wbackend : ExportBackend (List Nat) Nat where
  submit := fun _ => Except.ok "w"
  wait := fun _ => Except.ok ⟨"FINISHED", [5, 6]⟩
  chunk := fun _ id => Except.ok [id.toNat]
  decode := fun l => Except.ok l
  emptyRaw := []

/-- c8wstate: a fetch state that has already recorded identifier `"w"` and
a ready status, after one submit and one wait. -/
def c8wstate : ExportFetchState := ⟨"w", some ⟨"FINISHED", [5, 6]⟩, 0, 1, 1, []⟩

/-- quietAt: poll tick `i` neither terminates the loop nor is interrupted —
the status poll succeeds with a non-terminal status and the caller's
context has not fired at that tick. -/
def quietAt (poll : Nat → Except Err ExportStatus) (ctxDone : Nat → Option Err) (i : Nat) : Prop :=
  (∃ s, poll i = Except.ok s ∧
    s.status ≠ "FINISHED" ∧ s.status ≠ "CANCELLED" ∧ s.status ≠ "ERROR") ∧
  ctxDone i = none

/-- c5poll: a poll stream reporting `PROCESSING` once and then `FINISHED`
with chunks `[1, 2, 3]`. -/
def c5poll : Nat → Except Err ExportStatus := fun n =>
  if n = 0 then Except.ok ⟨"PROCESSING", []⟩ else Except.ok ⟨"FINISHED", [1, 2, 3]⟩

/-- c5ctx: a context that never fires. -/
def c5ctx : Nat → Option Err := fun _ => none

/-- mkScriptState: an iterator state over a scripted fetcher with the
identity transformer, no recorded error, not done, unknown total and no
page cap — the shape of every state reachable from `scriptIterE` while
no error and no termination condition has occurred.  The current page is
split as the consumed part `pre` (`pageIndex = pre.length`) and the not yet
consumed tail. -/
def mkScriptState (script : Nat → Except Err (Except Err (List T) × Option PaginationInfo))
    (log : List (Int × Int)) (l off c pl : Int) (cur : Option T)
    (page : List T) (idx : Nat) : Iterator (Except Err (List T)) T (List (Int × Int)) :=
  { fetchState := log
    fetcher := scriptFetcher script
    transformer := fun r => r
    limit := l
    offset := off
    total := -1
    page := page
    pageIndex := idx
    count := c
    maxPages := 0
    pagesLoaded := pl
    done := false
    err := none
    current := cur }

/-- mkSliceState: the iterator state over the fixed-collection fetcher
after at least one fetch, parametrized by the starting offset `o`, the
absolute position `a` at which the current page was fetched, and the
number `i` of its items already consumed: the page is
`src[a, a + min(limit, N - a))`, the stored total is `N = src.length`, the
offset has advanced by the number of items actually returned, and `count`
is the number of yields so far, `a + i - o`. -/
def mkSliceState (src : List T) (L : Int) (o a i : Nat) (pl : Int) (cur : Option T) :
    Iterator (List T) T Unit :=
  { fetchState := ()
    fetcher := sliceFetcher src
    transformer := Except.ok
    limit := L
    offset := ((a + ((src.drop a).take L.toNat).length : Nat) : Int)
    total := (src.length : Int)
    page := (src.drop a).take L.toNat
    pageIndex := i
    count := ((a + i : Nat) : Int) - (o : Int)
    maxPages := 0
    pagesLoaded := pl
    done := false
    err := none
    current := cur }

/-- mkSliceInit: the freshly constructed iterator over the
fixed-collection fetcher with page size `L` and starting offset `o`. -/
def mkSliceInit (src : List T) (L : Int) (o : Nat) : Iterator (List T) T Unit :=
  { fetchState := ()
    fetcher := sliceFetcher src
    transformer := Except.ok
    limit := L
    offset := (o : Int)
    total := -1
    page := []
    pageIndex := 0
    count := 0
    maxPages := 0
    pagesLoaded := 0
    done := false
    err := none
    current := none }

/-- mkExportMid: the iterator state of an assets export sequence over a
backend that serves one-item chunks, after `j >= 1` chunks have been
fetched and their items yielded: the export is submitted (identifier `u`),
the ready status `s` is cached, `currentChunk = j`, the instrumented log
records one submit, one wait and the first `j` chunk identifiers, the
stored total is the chunk count reported by the fetcher, and the current
one-item page `[x]` is fully consumed. -/
def mkExportMid (b : ExportBackend R T) (u : String) (s : ExportStatus)
    (cs : List Int) (j : Nat) (x : T) : Iterator R T ExportFetchState :=
  { fetchState := ⟨u, some s, (j : Int), 1, 1, cs.take j⟩
    fetcher := assetsFetcher b
    transformer := b.decode
    limit := 100
    offset := (j : Int)
    total := (cs.length : Int)
    page := [x]
    pageIndex := 1
    count := (j : Int)
    maxPages := 0
    pagesLoaded := (j : Int)
    done := false
    err := none
    current := some x }

/-- mkVulnsMid: the analogous mid-state of a vulnerabilities export
sequence over a backend that serves one-item chunks — identical to
`mkExportMid` except that the fetcher is the vulns export closure. -/
def mkVulnsMid (b : ExportBackend R T) (u : String) (s : ExportStatus)
    (cs : List Int) (j : Nat) (x : T) : Iterator R T ExportFetchState :=
  { fetchState := ⟨u, some s, (j : Int), 1, 1, cs.take j⟩
    fetcher := vulnsFetcher b
    transformer := b.decode
    limit := 100
    offset := (j : Int)
    total := (cs.length : Int)
    page := [x]
    pageIndex := 1
    count := (j : Int)
    maxPages := 0
    pagesLoaded := (j : Int)
    done := false
    err := none
    current := some x }

/-- done-or-error states are fixpoints of `Next`: it returns `false` and
mutates nothing, so no further fetch happens and the error is unchanged. -/
theorem next_stopped (it : Iterator R T FS) (h : it.done = true ∨ it.err.isSome = true) :
    next it = (false, it) := by
  unfold next
  exact if_pos h

/-- drain of a done-or-error state yields nothing and leaves it unchanged. -/
theorem drain_stopped (fuel : Nat) (it : Iterator R T FS)
    (h : it.done = true ∨ it.err.isSome = true) : drain fuel it = ([], it) := by
  cases fuel with
  | zero => rfl
  | succ n =>
    unfold drain
    rw [next_stopped it h]

/-! ### C9: a reported total of zero is authoritative -/

/-- C9 (confirmed): if the fetcher's first call returns a non-nil
`PaginationInfo` with `Total = 0` together with a non-empty page, the
iterator stores `total = 0`, yields exactly the first item of that page,
and the following `Next` hits `count >= total` and terminates with `done`
set and no error — the remaining items of the page are never yielded. -/
theorem c9_zero_total_truncates_to_one_item
    (script : Nat → Except Err (List T × Option PaginationInfo))
    (x : T) (xs : List T) (li off : Int)
    (h0 : script 0 = Except.ok (x :: xs, some ⟨0, li, off⟩)) :
    (drain 2 (scriptIter script [])).1 = [x] ∧
    (drain 2 (scriptIter script [])).2.err = none ∧
    (drain 2 (scriptIter script [])).2.done = true ∧
    next (drain 2 (scriptIter script [])).2 = (false, (drain 2 (scriptIter script [])).2) := by
  simp [drain, next, fetchNextPage, scriptIter, NewIterator, scriptFetcher, h0]

/-- Witness for C9 at a concrete input: a first page `[7, 8, 9]` with
reported `Total = 0` yields only `7`. -/
theorem c9_zero_total_truncates_to_one_item_witness :
    (drain 2 (scriptIter (fun _ => Except.ok ([7, 8, 9], some ⟨0, 100, 0⟩)) [])).1 = [(7 : Nat)] ∧
    (drain 2 (scriptIter (fun _ => Except.ok ([7, 8, 9], some ⟨0, 100, 0⟩)) [])).2.err = none :=
  ⟨(c9_zero_total_truncates_to_one_item (fun _ => Except.ok ([7, 8, 9], some ⟨0, 100, 0⟩))
      7 [8, 9] 100 0 rfl).1,
   (c9_zero_total_truncates_to_one_item (fun _ => Except.ok ([7, 8, 9], some ⟨0, 100, 0⟩))
      7 [8, 9] 100 0 rfl).2.1⟩

/-! ### Concrete scripts and backends for counterexamples -/

/-- C2 counterexample: after the first fetch the stored total is the known
value `10`; the third `Next` fetches the second page, whose `PaginationInfo`
reports `Total = 1`, and `fetchNextPage` overwrites the stored total with
it — the stored total drops from `10` to `1` on a later fetch, so it is not
monotonically non-decreasing once known. -/
theorem c2_total_can_decrease_counterexample :
    (next (scriptIter c2script [])).2.total = 10 ∧
    (next (next (next (scriptIter c2script [])).2).2).2.total = 1 := by
  constructor <;> rfl

/-- C6 counterexample: constructing an iterator with `WithLimit 0` does not
fail — `NewIterator` performs no validation and returns an ordinary
iterator with no recorded error — and the first `Next` does attempt a
fetch, passing the non-positive limit `0` straight to the fetch function. -/
theorem c6_no_construction_validation_counterexample :
    (scriptIter c6script [WithLimit 0]).err = none ∧
    (scriptIter c6script [WithLimit 0]).limit = 0 ∧
    (next (scriptIter c6script [WithLimit 0])).2.fetchState = [(0, 0)] := by
  refine ⟨rfl, rfl, rfl⟩

/-- C8 counterexample: the `exportUUID == ""` guard treats a successfully
submitted job whose returned identifier is the empty string as never
submitted, so the second page fetch of the assets iterator submits the
export a second time: after draining two items the instrumented state
records two submit calls. -/
theorem c8_resubmits_on_empty_uuid_counterexample :
    (drain 2 (AssetsIterator c8backend)).1 = [5, 6] ∧
    (drain 2 (AssetsIterator c8backend)).2.fetchState.submitCalls = 2 := by
  refine ⟨rfl, rfl⟩

/-- C1 counterexample: the export fetcher reports the number of available
chunks as `PaginationInfo.Total`, but the iterator counts items against it:
with one chunk decoding to the two items `[10, 20]`, the sequence yields
only `[10]` and then terminates (`count >= total` with `total = 1`), silently
dropping `20` — so the sequence does not yield every decoded item of every
chunk. -/
theorem c1_multi_item_chunk_truncated_counterexample :
    (drain 3 (AssetsIterator c1backend)).1 = [10] ∧
    (drain 3 (AssetsIterator c1backend)).1 ≠ [10, 20] ∧
    (drain 3 (AssetsIterator c1backend)).2.done = true ∧
    (drain 3 (AssetsIterator c1backend)).2.err = none := by
  refine ⟨rfl, by decide, rfl, rfl⟩

/-! ### C6 (amended): construction never validates, runtime failures surface via Next -/

/-- C6 (amended): `NewIterator` performs no argument validation and cannot
fail: with any non-positive limit it returns an ordinary iterator (no
recorded error, not done) carrying that limit; the first pull passes the
non-positive limit straight to the fetch function; and runtime failures
surface only through the pull operation (a fetch error is recorded in
`err`). -/
theorem c6_amended_construction_never_fails
    (script : Nat → Except Err (List T × Option PaginationInfo)) (L : Int) (_hL : L ≤ 0) :
    (scriptIter script [WithLimit L]).err = none ∧
    (scriptIter script [WithLimit L]).done = false ∧
    (scriptIter script [WithLimit L]).limit = L ∧
    (next (scriptIter script [WithLimit L])).2.fetchState = [(0, L)] ∧
    (∀ e, script 0 = Except.error e → (next (scriptIter script [WithLimit L])).2.err = some e) := by
  refine ⟨rfl, rfl, rfl, ?_, ?_⟩
  · rcases hs : script 0 with e | ⟨data, pag⟩
    · simp [next, fetchNextPage, scriptIter, NewIterator, scriptFetcher, WithLimit, hs]
    · rcases pag with _ | p
      · by_cases hd : data.length = 0 <;>
          simp [next, fetchNextPage, scriptIter, NewIterator, scriptFetcher, WithLimit, hs, hd]
      · by_cases hd : data.length = 0 <;>
          simp [next, fetchNextPage, scriptIter, NewIterator, scriptFetcher, WithLimit, hs, hd]
  · intro e hs
    simp [next, fetchNextPage, scriptIter, NewIterator, scriptFetcher, WithLimit, hs]

/-- Witness for the amended C6 at limit `-3`. -/
theorem c6_amended_construction_never_fails_witness :
    (scriptIter c6script [WithLimit (-3)]).err = none ∧
    (next (scriptIter c6script [WithLimit (-3)])).2.fetchState = [(0, -3)] :=
  ⟨(c6_amended_construction_never_fails c6script (-3) (by decide)).1,
   (c6_amended_construction_never_fails c6script (-3) (by decide)).2.2.2.1⟩

/-! ### C8 (amended): submit-once and wait-once given a non-empty identifier -/

/-- the chunk-streaming phase touches only `currentChunk` and `chunkCalls`. -/
theorem assetsFetchChunks_preserve (b : ExportBackend R T) (st : ExportFetchState)
    (s : ExportStatus) :
    (assetsFetchChunks b st s).2.exportUUID = st.exportUUID ∧
    (assetsFetchChunks b st s).2.status = st.status ∧
    (assetsFetchChunks b st s).2.submitCalls = st.submitCalls ∧
    (assetsFetchChunks b st s).2.waitCalls = st.waitCalls := by
  by_cases h : st.currentChunk ≥ (s.chunksAvailable.length : Int)
  · simp [assetsFetchChunks, h]
  · rcases hc : b.chunk st.exportUUID ((s.chunksAvailable[st.currentChunk.toNat]?).getD 0)
      with e | data
    · simp [assetsFetchChunks, h, hc]
    · rcases hd : b.decode data with e | items
      · simp [assetsFetchChunks, h, hc, hd]
      · simp [assetsFetchChunks, h, hc, hd]

/-- the vulns chunk-streaming phase touches only `currentChunk` and
`chunkCalls`. -/
theorem vulnsFetchChunks_preserve (b : ExportBackend R T) (st : ExportFetchState)
    (s : ExportStatus) :
    (vulnsFetchChunks b st s).2.exportUUID = st.exportUUID ∧
    (vulnsFetchChunks b st s).2.status = st.status ∧
    (vulnsFetchChunks b st s).2.submitCalls = st.submitCalls ∧
    (vulnsFetchChunks b st s).2.waitCalls = st.waitCalls := by
  by_cases h : st.currentChunk ≥ (s.chunksAvailable.length : Int)
  · simp [vulnsFetchChunks, h]
  · rcases hc : b.chunk st.exportUUID ((s.chunksAvailable[st.currentChunk.toNat]?).getD 0)
      with e | data
    · simp [vulnsFetchChunks, h, hc]
    · simp [vulnsFetchChunks, h, hc]

/-- the readiness phase never touches `exportUUID` or `submitCalls`, and
once a status is cached it performs no further wait and keeps the status. -/
theorem assetsFetchReady_preserve (b : ExportBackend R T) (st : ExportFetchState) :
    ((assetsFetchReady b st).2.exportUUID = st.exportUUID ∧
      (assetsFetchReady b st).2.submitCalls = st.submitCalls) ∧
    (∀ s, st.status = some s →
      (assetsFetchReady b st).2.waitCalls = st.waitCalls ∧
      (assetsFetchReady b st).2.status = some s) := by
  cases hst : st.status with
  | some s =>
    have h := assetsFetchChunks_preserve b st s
    simp only [assetsFetchReady, hst]
    refine ⟨⟨h.1, h.2.2.1⟩, fun s' hs' => ?_⟩
    injection hs' with hss
    subst hss
    exact ⟨h.2.2.2, by rw [h.2.1, hst]⟩
  | none =>
    simp only [assetsFetchReady, hst]
    refine ⟨?_, fun s' hs' => Option.noConfusion hs'⟩
    rcases hw : b.wait st.waitCalls with e | s
    · simp [hw]
    · simp only [hw]
      have h := assetsFetchChunks_preserve b
        { st with waitCalls := st.waitCalls + 1, status := some s } s
      exact ⟨h.1, h.2.2.1⟩

/-- vulns version of `assetsFetchReady_preserve`. -/
theorem vulnsFetchReady_preserve (b : ExportBackend R T) (st : ExportFetchState) :
    ((vulnsFetchReady b st).2.exportUUID = st.exportUUID ∧
      (vulnsFetchReady b st).2.submitCalls = st.submitCalls) ∧
    (∀ s, st.status = some s →
      (vulnsFetchReady b st).2.waitCalls = st.waitCalls ∧
      (vulnsFetchReady b st).2.status = some s) := by
  cases hst : st.status with
  | some s =>
    have h := vulnsFetchChunks_preserve b st s
    simp only [vulnsFetchReady, hst]
    refine ⟨⟨h.1, h.2.2.1⟩, fun s' hs' => ?_⟩
    injection hs' with hss
    subst hss
    exact ⟨h.2.2.2, by rw [h.2.1, hst]⟩
  | none =>
    simp only [vulnsFetchReady, hst]
    refine ⟨?_, fun s' hs' => Option.noConfusion hs'⟩
    rcases hw : b.wait st.waitCalls with e | s
    · simp [hw]
    · simp only [hw]
      have h := vulnsFetchChunks_preserve b
        { st with waitCalls := st.waitCalls + 1, status := some s } s
      exact ⟨h.1, h.2.2.1⟩

/-- one assets fetch invocation: with a non-empty recorded identifier it
performs no submit and keeps the identifier; with a cached status it
performs no wait and keeps the status. -/
theorem assetsFetcher_step (b : ExportBackend R T) (st : ExportFetchState) (off lim : Int) :
    (st.exportUUID ≠ "" →
      ((assetsFetcher b) st off lim).2.submitCalls = st.submitCalls ∧
      ((assetsFetcher b) st off lim).2.exportUUID = st.exportUUID) ∧
    (∀ s, st.status = some s →
      ((assetsFetcher b) st off lim).2.waitCalls = st.waitCalls ∧
      ((assetsFetcher b) st off lim).2.status = some s) := by
  by_cases hu : st.exportUUID = ""
  · refine ⟨fun h => absurd hu h, fun s hs => ?_⟩
    rcases hsub : b.submit st.submitCalls with e | uuid
    · simp [assetsFetcher, if_pos hu, hsub, hs]
    · simp only [assetsFetcher, if_pos hu, hsub]
      have h := assetsFetchReady_preserve b
        { st with submitCalls := st.submitCalls + 1, exportUUID := uuid }
      exact h.2 s hs
  · have h := assetsFetchReady_preserve b st
    simp only [assetsFetcher, if_neg hu]
    exact ⟨fun _ => ⟨h.1.2, h.1.1⟩, h.2⟩

/-- one vulns fetch invocation, same preservation facts. -/
theorem vulnsFetcher_step (b : ExportBackend R T) (st : ExportFetchState) (off lim : Int) :
    (st.exportUUID ≠ "" →
      ((vulnsFetcher b) st off lim).2.submitCalls = st.submitCalls ∧
      ((vulnsFetcher b) st off lim).2.exportUUID = st.exportUUID) ∧
    (∀ s, st.status = some s →
      ((vulnsFetcher b) st off lim).2.waitCalls = st.waitCalls ∧
      ((vulnsFetcher b) st off lim).2.status = some s) := by
  by_cases hu : st.exportUUID = ""
  · refine ⟨fun h => absurd hu h, fun s hs => ?_⟩
    rcases hsub : b.submit st.submitCalls with e | uuid
    · simp [vulnsFetcher, if_pos hu, hsub, hs]
    · simp only [vulnsFetcher, if_pos hu, hsub]
      have h := vulnsFetchReady_preserve b
        { st with submitCalls := st.submitCalls + 1, exportUUID := uuid }
      exact h.2 s hs
  · have h := vulnsFetchReady_preserve b st
    simp only [vulnsFetcher, if_neg hu]
    exact ⟨fun _ => ⟨h.1.2, h.1.1⟩, h.2⟩

/-- C8 (amended): the export fetch closures submit at most once provided
the submission's returned identifier is non-empty (the `exportUUID == ""`
guard cannot distinguish an empty identifier from no submission — see the
counterexample), and wait for readiness at most once after a wait has
succeeded: (1) a successful submission records the returned identifier;
(2) with a non-empty recorded identifier, any number of further fetch
invocations performs no submit and keeps the identifier; (3) with a cached
status, any number of further fetch invocations performs no wait and keeps
the status; (4)/(5) the same for the vulns fetcher. -/
theorem c8_amended_submit_once_with_nonempty_uuid
    (b : ExportBackend R T) (st : ExportFetchState) :
    (∀ u (off lim : Int), st.exportUUID = "" → b.submit st.submitCalls = Except.ok u →
      ((assetsFetcher b) st off lim).2.exportUUID = u) ∧
    (st.exportUUID ≠ "" → ∀ args n,
      (fetchN (assetsFetcher b) args n st).submitCalls = st.submitCalls ∧
      (fetchN (assetsFetcher b) args n st).exportUUID = st.exportUUID) ∧
    (∀ s, st.status = some s → ∀ args n,
      (fetchN (assetsFetcher b) args n st).waitCalls = st.waitCalls ∧
      (fetchN (assetsFetcher b) args n st).status = some s) ∧
    (st.exportUUID ≠ "" → ∀ args n,
      (fetchN (vulnsFetcher b) args n st).submitCalls = st.submitCalls ∧
      (fetchN (vulnsFetcher b) args n st).exportUUID = st.exportUUID) ∧
    (∀ s, st.status = some s → ∀ args n,
      (fetchN (vulnsFetcher b) args n st).waitCalls = st.waitCalls ∧
      (fetchN (vulnsFetcher b) args n st).status = some s) := by
  refine ⟨?_, ?_, ?_, ?_, ?_⟩
  · intro u off lim hu hsub
    simp only [assetsFetcher, if_pos hu, hsub]
    exact (assetsFetchReady_preserve b _).1.1
  · intro hu args n
    induction n with
    | zero => exact ⟨rfl, rfl⟩
    | succ n ih =>
      have hstep := assetsFetcher_step b (fetchN (assetsFetcher b) args n st)
        (args n).1 (args n).2
      have hu' : (fetchN (assetsFetcher b) args n st).exportUUID ≠ "" := by
        rw [ih.2]; exact hu
      exact ⟨((hstep.1 hu').1).trans ih.1, ((hstep.1 hu').2).trans ih.2⟩
  · intro s hs args n
    induction n with
    | zero => exact ⟨rfl, hs⟩
    | succ n ih =>
      have hstep := assetsFetcher_step b (fetchN (assetsFetcher b) args n st)
        (args n).1 (args n).2
      exact ⟨((hstep.2 s ih.2).1).trans ih.1, (hstep.2 s ih.2).2⟩
  · intro hu args n
    induction n with
    | zero => exact ⟨rfl, rfl⟩
    | succ n ih =>
      have hstep := vulnsFetcher_step b (fetchN (vulnsFetcher b) args n st)
        (args n).1 (args n).2
      have hu' : (fetchN (vulnsFetcher b) args n st).exportUUID ≠ "" := by
        rw [ih.2]; exact hu
      exact ⟨((hstep.1 hu').1).trans ih.1, ((hstep.1 hu').2).trans ih.2⟩
  · intro s hs args n
    induction n with
    | zero => exact ⟨rfl, hs⟩
    | succ n ih =>
      have hstep := vulnsFetcher_step b (fetchN (vulnsFetcher b) args n st)
        (args n).1 (args n).2
      exact ⟨((hstep.2 s ih.2).1).trans ih.1, (hstep.2 s ih.2).2⟩

/-- Witness for the amended C8 at a concrete backend: the identifier is
recorded, and three further fetch invocations perform no submit and no
wait. -/
theorem c8_amended_submit_once_with_nonempty_uuid_witness :
    ((assetsFetcher c8wbackend) initExportState 0 100).2.exportUUID = "w" ∧
    (fetchN (assetsFetcher c8wbackend) (fun _ => (0, 100)) 3 c8wstate).submitCalls = 1 ∧
    (fetchN (assetsFetcher c8wbackend) (fun _ => (0, 100)) 3 c8wstate).waitCalls = 1 :=
  ⟨(c8_amended_submit_once_with_nonempty_uuid c8wbackend initExportState).1 "w" 0 100 rfl rfl,
   ((c8_amended_submit_once_with_nonempty_uuid c8wbackend c8wstate).2.1 (by decide)
      (fun _ => (0, 100)) 3).1,
   ((c8_amended_submit_once_with_nonempty_uuid c8wbackend c8wstate).2.2.1 ⟨"FINISHED", [5, 6]⟩ rfl
      (fun _ => (0, 100)) 3).1⟩

/-! ### C5: WaitForExport outcome classification -/

/-- one quiet tick advances the poll loop by exactly one tick. -/
theorem waitLoop_quiet_step (et uuid : String) (poll : Nat → Except Err ExportStatus)
    (ctxDone : Nat → Option Err)
    (hval : et = "assets" ∨ et = "vulns" ∨ et = "compliance")
    (k fuel : Nat) (hq : quietAt poll ctxDone k) :
    waitForExportLoop et uuid poll ctxDone k (fuel + 1) =
    waitForExportLoop et uuid poll ctxDone (k + 1) fuel := by
  obtain ⟨⟨s, hs, h1, h2, h3⟩, hctx⟩ := hq
  simp [waitForExportLoop, if_pos hval, hs, h1, h2, h3, hctx]

/-- after `j` quiet ticks the poll loop is at tick `k + j` with the same
dynamics: the loop neither skips a tick nor consults anything else. -/
theorem waitLoop_shift (et uuid : String) (poll : Nat → Except Err ExportStatus)
    (ctxDone : Nat → Option Err)
    (hval : et = "assets" ∨ et = "vulns" ∨ et = "compliance") :
    ∀ j k fuel, (∀ i, i < j → quietAt poll ctxDone (k + i)) →
      waitForExportLoop et uuid poll ctxDone k (j + fuel) =
      waitForExportLoop et uuid poll ctxDone (k + j) fuel := by
  intro j
  induction j with
  | zero =>
    intro k fuel _
    rw [Nat.zero_add, Nat.add_zero]
  | succ j ih =>
    intro k fuel h
    have hq0 : quietAt poll ctxDone k := by simpa using h 0 (Nat.succ_pos j)
    have hrest := ih (k + 1) fuel (fun i hi => by
      have hqi := h (i + 1) (by omega)
      have he : k + (i + 1) = k + 1 + i := by omega
      rwa [he] at hqi)
    calc waitForExportLoop et uuid poll ctxDone k (j + 1 + fuel)
        = waitForExportLoop et uuid poll ctxDone k ((j + fuel) + 1) := by
          rw [show j + 1 + fuel = (j + fuel) + 1 from by omega]
      _ = waitForExportLoop et uuid poll ctxDone (k + 1) (j + fuel) :=
          waitLoop_quiet_step et uuid poll ctxDone hval k (j + fuel) hq0
      _ = waitForExportLoop et uuid poll ctxDone (k + 1 + j) fuel := hrest
      _ = waitForExportLoop et uuid poll ctxDone (k + (j + 1)) fuel := by
          rw [show k + 1 + j = k + (j + 1) from by omega]

/-- C5 (confirmed): after any number of quiet ticks, `WaitForExport`
classifies its terminal outcome exactly as the claim states: it returns
the status (with its chunk identifier list) on `FINISHED`; it fails with
the `base.ExportError` kind — distinguishing remote cancellation
(`"export cancelled"`) from remote failure (`"export failed"`), and
distinct from a transport error — on `CANCELLED` or `ERROR`; a status-poll
transport error is propagated verbatim without retry; and if the caller's
context fires during the inter-poll wait of any tick, the loop returns the
context's error (`ctx.Err()`, distinct by construction from the
remote-failure `ExportError` values) at that very tick. -/
theorem c5_wait_for_export_classification (et uuid : String)
    (poll : Nat → Except Err ExportStatus) (ctxDone : Nat → Option Err)
    (hval : et = "assets" ∨ et = "vulns" ∨ et = "compliance")
    (j : Nat) (hq : ∀ i, i < j → quietAt poll ctxDone i) :
    (∀ s, poll j = Except.ok s → s.status = "FINISHED" → ∀ extra pi,
      WaitForExport et uuid pi poll ctxDone (j + 1 + extra) = some (Except.ok s)) ∧
    (∀ s, poll j = Except.ok s → s.status = "CANCELLED" → ∀ extra pi,
      WaitForExport et uuid pi poll ctxDone (j + 1 + extra) =
        some (Except.error (Err.exportError et uuid "export cancelled"))) ∧
    (∀ s, poll j = Except.ok s → s.status = "ERROR" → ∀ extra pi,
      WaitForExport et uuid pi poll ctxDone (j + 1 + extra) =
        some (Except.error (Err.exportError et uuid "export failed"))) ∧
    (∀ e, poll j = Except.error e → ∀ extra pi,
      WaitForExport et uuid pi poll ctxDone (j + 1 + extra) = some (Except.error e)) ∧
    (∀ s ce, poll j = Except.ok s →
      s.status ≠ "FINISHED" → s.status ≠ "CANCELLED" → s.status ≠ "ERROR" →
      ctxDone j = some ce → ∀ extra pi,
      WaitForExport et uuid pi poll ctxDone (j + 1 + extra) = some (Except.error ce)) ∧
    (Err.exportError et uuid "export cancelled" ≠ Err.exportError et uuid "export failed") ∧
    (∀ a b c, Err.canceled ≠ Err.exportError a b c ∧ Err.deadlineExceeded ≠ Err.exportError a b c) := by
  have hshift : ∀ extra pi, WaitForExport et uuid pi poll ctxDone (j + 1 + extra) =
      waitForExportLoop et uuid poll ctxDone j (extra + 1) := by
    intro extra pi
    unfold WaitForExport
    have h1 : j + 1 + extra = j + (extra + 1) := by omega
    rw [h1]
    have := waitLoop_shift et uuid poll ctxDone hval j 0 (extra + 1)
      (fun i hi => by simpa using hq i hi)
    simpa using this
  refine ⟨?_, ?_, ?_, ?_, ?_, by simp, by intro a b c; exact ⟨by simp, by simp⟩⟩
  · intro s hs hfin extra pi
    rw [hshift extra pi]
    simp [waitForExportLoop, if_pos hval, hs, hfin]
  · intro s hs hst extra pi
    rw [hshift extra pi]
    simp [waitForExportLoop, if_pos hval, hs, hst]
  · intro s hs hst extra pi
    rw [hshift extra pi]
    simp [waitForExportLoop, if_pos hval, hs, hst]
  · intro e he extra pi
    rw [hshift extra pi]
    simp [waitForExportLoop, if_pos hval, he]
  · intro s ce hs h1 h2 h3 hctx extra pi
    rw [hshift extra pi]
    simp [waitForExportLoop, if_pos hval, hs, h1, h2, h3, hctx]

/-- Witness for C5: with a quiet first tick, the second poll's `FINISHED`
status (chunks `[1, 2, 3]`) is returned as the result. -/
theorem c5_wait_for_export_classification_witness :
    WaitForExport "assets" "u" 0 c5poll c5ctx 3 =
      some (Except.ok ⟨"FINISHED", [1, 2, 3]⟩) :=
  (c5_wait_for_export_classification "assets" "u" c5poll c5ctx (Or.inl rfl) 1
      (fun i hi => by
        interval_cases i
        exact ⟨⟨⟨"PROCESSING", []⟩, rfl, by decide, by decide, by decide⟩, rfl⟩)).1
    ⟨"FINISHED", [1, 2, 3]⟩ rfl rfl 1 0

/-- drain at positive fuel, as one unfolding step (definitional). -/
theorem drain_succ (fuel : Nat) (it : Iterator R T FS) :
    drain (fuel + 1) it =
      match next it with
      | (false, it') => ([], it')
      | (true, it') =>
        match it'.current with
        | some x => (x :: (drain fuel it').1, (drain fuel it').2)
        | none => ([], it') := rfl

/-- a successful `Next` prepends its item to the rest of the drain. -/
theorem drain_succ_true (fuel : Nat) (it it' : Iterator R T FS) (x : T)
    (h : next it = (true, it')) (hc : it'.current = some x) :
    drain (fuel + 1) it = (x :: (drain fuel it').1, (drain fuel it').2) := by
  simp only [drain_succ, h, hc]

/-- a failing `Next` ends the drain with the state it produced. -/
theorem drain_succ_false (fuel : Nat) (it it' : Iterator R T FS)
    (h : next it = (false, it')) :
    drain (fuel + 1) it = ([], it') := by
  simp only [drain_succ, h]

/-- scriptRun: the general run of an iterator over a scripted fetcher with
identity transformer, from any reachable no-error state: when the script
serves the remaining nonempty pages `pages` (reporting no pagination) and
then an error-producing outcome, the drain yields the unconsumed tail of
the current page followed by every item of every page in order, records
exactly the outcome's error, and has performed exactly one fetch per page
plus the failing fetch. -/
theorem scriptRun (script : Nat → Except Err (Except Err (List T) × Option PaginationInfo)) :
    ∀ (F : Nat) (pages : List (List T)) (e' : Err) (rest pre : List T)
      (log : List (Int × Int)) (l off c pl : Int) (cur : Option T),
      F = rest.length + pages.flatten.length + 1 →
      (∀ j (hj : j < pages.length), script (log.length + j) = Except.ok (Except.ok pages[j], none)) →
      (∀ P ∈ pages, P ≠ []) →
      outcomeErr (script (log.length + pages.length)) = some e' →
      (drain F (mkScriptState script log l off c pl cur (pre ++ rest) pre.length)).1
          = rest ++ pages.flatten ∧
      (drain F (mkScriptState script log l off c pl cur (pre ++ rest) pre.length)).2.err
          = some e' ∧
      (drain F (mkScriptState script log l off c pl cur (pre ++ rest) pre.length)).2.fetchState.length
          = log.length + pages.length + 1 := by
  intro F
  induction F with
  | zero =>
    intro pages e' rest pre log l off c pl cur hF hp hne herr
    exact absurd hF (by omega)
  | succ F ih =>
    intro pages e' rest pre log l off c pl cur hF hp hne herr
    cases rest with
    | cons x rest' =>
      have hget : (pre ++ x :: rest')[pre.length]? = some x := by
        rw [List.getElem?_append_right (Nat.le_refl _)]
        simp
      have hc3 : ¬ (pre.length ≥ (pre ++ x :: rest').length) := by
        simp only [ge_iff_le, List.length_append, List.length_cons]
        omega
      have hnext : next (mkScriptState script log l off c pl cur (pre ++ x :: rest') pre.length)
          = (true, mkScriptState script log l off (c + 1) pl (some x)
              (pre ++ x :: rest') (pre.length + 1)) := by
        simp [next, mkScriptState, hc3, hget]
      have hstep := drain_succ_true F _ _ x hnext rfl
      have hF' : F = rest'.length + pages.flatten.length + 1 := by
        simp only [List.length_cons] at hF
        omega
      obtain ⟨ih1, ih2, ih3⟩ := ih pages e' rest' (pre ++ [x]) log l off (c + 1) pl (some x)
        hF' hp hne herr
      have hlen : (pre ++ [x]).length = pre.length + 1 := by simp
      rw [hlen, ← List.append_cons] at ih1 ih2 ih3
      refine ⟨?_, ?_, ?_⟩
      · rw [hstep]
        simp only []
        rw [ih1, List.cons_append]
      · rw [hstep]
        exact ih2
      · rw [hstep]
        exact ih3
    | nil =>
      cases pages with
      | cons P ps =>
        have hPne : P ≠ [] := hne P (List.mem_cons_self P ps)
        cases P with
        | nil => exact absurd rfl hPne
        | cons y P' =>
          have h0 := hp 0 (by simp)
          simp only [Nat.add_zero, List.getElem_cons_zero] at h0
          have hc3 : (pre ++ ([] : List T)).length ≤ pre.length := by simp
          have hnext : next (mkScriptState script log l off c pl cur (pre ++ []) pre.length)
              = (true, mkScriptState script (log ++ [(off, l)]) l
                  (off + ((y :: P').length : Int)) (c + 1) (pl + 1) (some y) (y :: P') 1) := by
            simp [next, fetchNextPage, mkScriptState, scriptFetcher, hc3, h0]
          have hstep := drain_succ_true F _ _ y hnext rfl
          have hF' : F = P'.length + ps.flatten.length + 1 := by
            simp only [List.length_nil, List.flatten_cons, List.length_append,
              List.length_cons] at hF
            omega
          have hp' : ∀ j (hj : j < ps.length),
              script ((log ++ [(off, l)]).length + j) = Except.ok (Except.ok ps[j], none) := by
            intro j hj
            have hj' : j + 1 < (((y : T) :: P') :: ps).length := by
              simp only [List.length_cons]
              omega
            have := hp (j + 1) hj'
            simp only [List.getElem_cons_succ] at this
            have hidx : (log ++ [(off, l)]).length + j = log.length + (j + 1) := by
              simp only [List.length_append, List.length_cons, List.length_nil]
              omega
            rw [hidx]
            exact this
          have hne' : ∀ Q ∈ ps, Q ≠ [] := fun Q hQ => hne Q (List.mem_cons_of_mem _ hQ)
          have herr' : outcomeErr (script ((log ++ [(off, l)]).length + ps.length)) = some e' := by
            have hidx : (log ++ [(off, l)]).length + ps.length
                = log.length + (((y : T) :: P') :: ps).length := by
              simp only [List.length_append, List.length_cons, List.length_nil]
              omega
            rw [hidx]
            exact herr
          obtain ⟨ih1, ih2, ih3⟩ := ih ps e' P' [y] (log ++ [(off, l)]) l
            (off + ((y :: P').length : Int)) (c + 1) (pl + 1) (some y) hF' hp' hne' herr'
          simp only [List.singleton_append, List.length_singleton] at ih1 ih2 ih3
          refine ⟨?_, ?_, ?_⟩
          · rw [hstep]
            simp only []
            rw [ih1]
            simp [List.flatten_cons]
          · rw [hstep]
            exact ih2
          · rw [hstep]
            simp only []
            rw [ih3]
            simp only [List.length_append, List.length_cons, List.length_nil]
            omega
      | nil =>
        have hF0 : F = 0 := by simpa using hF
        subst hF0
        simp only [List.length_nil, Nat.add_zero] at herr
        have hc3 : (pre ++ ([] : List T)).length ≤ pre.length := by simp
        rcases hs : script log.length with e | ⟨r, pag⟩
        · have he' : e = e' := by
            rw [hs] at herr
            simpa [outcomeErr] using herr
          subst he'
          have hnext : next (mkScriptState script log l off c pl cur (pre ++ []) pre.length)
              = (false, { mkScriptState script (log ++ [(off, l)]) l off c pl cur
                    (pre ++ []) pre.length with err := some e }) := by
            simp [next, fetchNextPage, mkScriptState, scriptFetcher, hc3, hs]
          have hstep := drain_succ_false 0 _ _ hnext
          rw [hstep]
          exact ⟨by simp, rfl, by simp [mkScriptState]⟩
        · rcases r with d | L'
          · have hd' : Err.transform d = e' := by
              rw [hs] at herr
              simpa [outcomeErr] using herr
            rcases pag with _ | p
            · have hnext : next (mkScriptState script log l off c pl cur (pre ++ []) pre.length)
                  = (false, { mkScriptState script (log ++ [(off, l)]) l off c pl cur
                        (pre ++ []) pre.length with err := some (Err.transform d) }) := by
                simp [next, fetchNextPage, mkScriptState, scriptFetcher, hc3, hs]
              have hstep := drain_succ_false 0 _ _ hnext
              rw [hstep]
              exact ⟨by simp, congrArg some hd', by simp [mkScriptState]⟩
            · have hnext : next (mkScriptState script log l off c pl cur (pre ++ []) pre.length)
                  = (false, { mkScriptState script (log ++ [(off, l)]) l off c pl cur
                        (pre ++ []) pre.length with
                        total := p.total, err := some (Err.transform d) }) := by
                simp [next, fetchNextPage, mkScriptState, scriptFetcher, hc3, hs]
              have hstep := drain_succ_false 0 _ _ hnext
              rw [hstep]
              exact ⟨by simp, congrArg some hd', by simp [mkScriptState]⟩
          · rw [hs] at herr
            simp [outcomeErr] at herr

/-- C3 (confirmed): for a fetch function that serves the nonempty pages
`1..k-1` (with no pagination metadata) and then fails on page `k` — either
the fetch itself erroring or the decode of page `k`'s data failing, both
captured by `outcomeErr` — the sequence yields exactly the items of pages
`1..k-1` in order, then `Next` returns `false` with `Err()` the recorded
error; the error state is a fixpoint of `Next`: every subsequent call
returns `false`, mutates nothing (in particular performs no further fetch,
as the fetch log is part of the state), and `Err()` is unchanged. -/
theorem c3_fail_stop (pages : List (List T))
    (script : Nat → Except Err (Except Err (List T) × Option PaginationInfo)) (e' : Err)
    (hp : ∀ j (hj : j < pages.length), script j = Except.ok (Except.ok pages[j], none))
    (hne : ∀ P ∈ pages, P ≠ [])
    (herr : outcomeErr (script pages.length) = some e') :
    (drain (pages.flatten.length + 1) (scriptIterE script)).1 = pages.flatten ∧
    (drain (pages.flatten.length + 1) (scriptIterE script)).2.err = some e' ∧
    next (drain (pages.flatten.length + 1) (scriptIterE script)).2
      = (false, (drain (pages.flatten.length + 1) (scriptIterE script)).2) ∧
    (drain (pages.flatten.length + 1) (scriptIterE script)).2.fetchState.length
      = pages.length + 1 := by
  have h := scriptRun script (pages.flatten.length + 1) pages e' [] [] [] 100 0 0 0 none
    (by simp) (fun j hj => by simpa using hp j hj) hne (by simpa using herr)
  have heq : mkScriptState script [] 100 0 0 0 none
      (([] : List T) ++ ([] : List T)) (List.length ([] : List T)) = scriptIterE script := rfl
  rw [heq] at h
  obtain ⟨h1, h2, h3⟩ := h
  refine ⟨by simpa using h1, h2, ?_, by simpa using h3⟩
  exact next_stopped _ (Or.inr (by rw [h2]; rfl))

/-- c3script: two nonempty pages then a transport error. -/
def c3script : Nat → Except Err (Except Err (List Nat) × Option PaginationInfo) := fun n =>
  if n = 0 then Except.ok (Except.ok [1, 2], none)
  else if n = 1 then Except.ok (Except.ok [3], none)
  else Except.error (Err.apiError 500)

/-- Witness for C3: pages `[1,2]`, `[3]`, then a transport error — the
sequence yields `[1, 2, 3]` and records exactly that error. -/
theorem c3_fail_stop_witness :
    (drain 4 (scriptIterE c3script)).1 = [1, 2, 3] ∧
    (drain 4 (scriptIterE c3script)).2.err = some (Err.apiError 500) :=
  ⟨(c3_fail_stop [[1, 2], [3]] c3script (Err.apiError 500)
      (by
        intro j hj
        rcases j with _ | _ | j
        · rfl
        · rfl
        · simp only [List.length_cons, List.length_nil] at hj
          omega)
      (by
        intro P hP
        fin_cases hP <;> simp)
      rfl).1,
   (c3_fail_stop [[1, 2], [3]] c3script (Err.apiError 500)
      (by
        intro j hj
        rcases j with _ | _ | j
        · rfl
        · rfl
        · simp only [List.length_cons, List.length_nil] at hj
          omega)
      (by
        intro P hP
        fin_cases hP <;> simp)
      rfl).2.1⟩

/-- C10 (confirmed): in the same failing-fetch scenario, the bulk
consumers return the bare error with no items: `All` discards the items of
pages `1..k-1` it had already accumulated in the same call, and so does
`Take n` for an `n` large enough to reach the failing fetch. -/
theorem c10_all_take_discard_on_error (pages : List (List T))
    (script : Nat → Except Err (Except Err (List T) × Option PaginationInfo)) (e' : Err)
    (hp : ∀ j (hj : j < pages.length), script j = Except.ok (Except.ok pages[j], none))
    (hne : ∀ P ∈ pages, P ≠ [])
    (herr : outcomeErr (script pages.length) = some e') :
    (All (pages.flatten.length + 1) (scriptIterE script)).1 = Except.error e' ∧
    (Take ((pages.flatten.length : Int) + 1) (scriptIterE script)).1 = Except.error e' := by
  have h := scriptRun script (pages.flatten.length + 1) pages e' [] [] [] 100 0 0 0 none
    (by simp) (fun j hj => by simpa using hp j hj) hne (by simpa using herr)
  have heq : mkScriptState script [] 100 0 0 0 none
      (([] : List T) ++ ([] : List T)) (List.length ([] : List T)) = scriptIterE script := rfl
  rw [heq] at h
  obtain ⟨h1, h2, h3⟩ := h
  constructor
  · simp only [All, h2]
  · have hn : (((pages.flatten.length : Int)) + 1).toNat = pages.flatten.length + 1 := by
      omega
    simp only [Take, hn, h2]

/-- Witness for C10: with pages `[1,2]`, `[3]` accumulated and then a
transport error, `All` and `Take 4` both return the error and no items. -/
theorem c10_all_take_discard_on_error_witness :
    (All 4 (scriptIterE c3script)).1 = Except.error (Err.apiError 500) ∧
    (Take 4 (scriptIterE c3script)).1 = Except.error (Err.apiError 500) :=
  ⟨(c10_all_take_discard_on_error [[1, 2], [3]] c3script (Err.apiError 500)
      (by
        intro j hj
        rcases j with _ | _ | j
        · rfl
        · rfl
        · simp only [List.length_cons, List.length_nil] at hj
          omega)
      (by
        intro P hP
        fin_cases hP <;> simp)
      rfl).1,
   (c10_all_take_discard_on_error [[1, 2], [3]] c3script (Err.apiError 500)
      (by
        intro j hj
        rcases j with _ | _ | j
        · rfl
        · rfl
        · simp only [List.length_cons, List.length_nil] at hj
          omega)
      (by
        intro P hP
        fin_cases hP <;> simp)
      rfl).2⟩


/-! ### C2 (amended): the total only gates stopping; yields are an initial
segment of the fetched pages -/

/-- one more scripted call appends that call's page (empty for an error). -/
theorem scriptJoin_succ (script : Nat → Except Err (List T × Option PaginationInfo)) (n : Nat) :
    scriptJoin script (n + 1) = scriptJoin script n ++ pagesOf (script n) := by
  unfold scriptJoin
  rw [List.range_succ, List.map_append, List.flatten_append]
  simp

/-- single-step invariant for an arbitrary scripted run (any pagination
metadata, any errors): one `Next` call either yields the next item of the
concatenation of fetched pages or stops, and `count` counts the yields.
`zs` is the list of items yielded so far. -/
theorem script_next_inv (script : Nat → Except Err (List T × Option PaginationInfo))
    (it : Iterator (List T) T (List (Int × Int)))
    (hf : it.fetcher = scriptFetcher script) (ht : it.transformer = Except.ok)
    (zs : List T)
    (hinv : scriptJoin script it.fetchState.length = zs ++ it.page.drop it.pageIndex)
    (hc : it.count = (zs.length : Int)) :
    ∀ b it', next it = (b, it') →
      it'.fetcher = scriptFetcher script ∧ it'.transformer = Except.ok ∧
      (b = true → ∃ x, it'.current = some x ∧
        scriptJoin script it'.fetchState.length
          = (zs ++ [x]) ++ it'.page.drop it'.pageIndex ∧
        it'.count = ((zs.length : Int) + 1)) ∧
      (b = false →
        scriptJoin script it'.fetchState.length = zs ++ it'.page.drop it'.pageIndex ∧
        it'.count = (zs.length : Int)) := by
  intro b it' h
  rcases hsc : script it.fetchState.length with e | ⟨data, pag⟩
  · simp only [next, fetchNextPage, hf, scriptFetcher, hsc, ht] at h
    split_ifs at h with h1 h2 h3 h4 h5
    · obtain ⟨rfl, rfl⟩ := Prod.mk.injEq .. |>.mp h
      exact ⟨by first | rfl | exact hf, by first | rfl | exact ht, fun hb => Bool.noConfusion hb, fun _ => ⟨hinv, hc⟩⟩
    · obtain ⟨rfl, rfl⟩ := Prod.mk.injEq .. |>.mp h
      exact ⟨by first | rfl | exact hf, by first | rfl | exact ht, fun hb => Bool.noConfusion hb, fun _ => ⟨hinv, hc⟩⟩
    · obtain ⟨rfl, rfl⟩ := Prod.mk.injEq .. |>.mp h
      exact ⟨by first | rfl | exact hf, by first | rfl | exact ht, fun hb => Bool.noConfusion hb, fun _ => ⟨hinv, hc⟩⟩
    · obtain ⟨rfl, rfl⟩ := Prod.mk.injEq .. |>.mp h
      exact ⟨by first | rfl | exact hf, by first | rfl | exact ht, fun hb => Bool.noConfusion hb, fun _ => ⟨hinv, hc⟩⟩
    · obtain ⟨rfl, rfl⟩ := Prod.mk.injEq .. |>.mp h
      refine ⟨by first | rfl | exact hf, by first | rfl | exact ht, fun hb => Bool.noConfusion hb, fun _ => ⟨?_, hc⟩⟩
      simp only [List.length_append, List.length_cons, List.length_nil]
      rw [scriptJoin_succ, hsc]
      simpa [pagesOf] using hinv
    · obtain ⟨rfl, rfl⟩ := Prod.mk.injEq .. |>.mp h
      have hlt : it.pageIndex < it.page.length := by omega
      refine ⟨by first | rfl | exact hf, by first | rfl | exact ht, fun hb => ?_,
        fun hb => Bool.noConfusion hb⟩
      refine ⟨it.page[it.pageIndex], by simp [List.getElem?_eq_getElem hlt], ?_, by simp [hc]⟩
      have hdrop : it.page.drop it.pageIndex
          = it.page[it.pageIndex] :: it.page.drop (it.pageIndex + 1) :=
        List.drop_eq_getElem_cons hlt
      rw [hdrop] at hinv
      simpa using hinv
  · simp only [next, fetchNextPage, hf, scriptFetcher, hsc, ht] at h
    split_ifs at h with h1 h2 h3 h4 h5 h6
    · obtain ⟨rfl, rfl⟩ := Prod.mk.injEq .. |>.mp h
      exact ⟨by first | rfl | exact hf, by first | rfl | exact ht, fun hb => Bool.noConfusion hb, fun _ => ⟨hinv, hc⟩⟩
    · obtain ⟨rfl, rfl⟩ := Prod.mk.injEq .. |>.mp h
      exact ⟨by first | rfl | exact hf, by first | rfl | exact ht, fun hb => Bool.noConfusion hb, fun _ => ⟨hinv, hc⟩⟩
    · obtain ⟨rfl, rfl⟩ := Prod.mk.injEq .. |>.mp h
      exact ⟨by first | rfl | exact hf, by first | rfl | exact ht, fun hb => Bool.noConfusion hb, fun _ => ⟨hinv, hc⟩⟩
    · obtain ⟨rfl, rfl⟩ := Prod.mk.injEq .. |>.mp h
      exact ⟨by first | rfl | exact hf, by first | rfl | exact ht, fun hb => Bool.noConfusion hb, fun _ => ⟨hinv, hc⟩⟩
    · -- empty page returned: terminate, no new items
      obtain ⟨rfl, rfl⟩ := Prod.mk.injEq .. |>.mp h
      refine ⟨by first | rfl | exact hf, by first | rfl | exact ht, fun hb => Bool.noConfusion hb, fun _ => ⟨?_, hc⟩⟩
      simp only [List.length_append, List.length_cons, List.length_nil]
      rw [scriptJoin_succ, hsc]
      have hdata : data = [] := List.eq_nil_of_length_eq_zero h6
      subst hdata
      simpa [pagesOf] using hinv
    · -- nonempty page installed, first item yielded
      obtain ⟨rfl, rfl⟩ := Prod.mk.injEq .. |>.mp h
      have hpend : it.page.drop it.pageIndex = [] := List.drop_eq_nil_of_le (by omega)
      rw [hpend, List.append_nil] at hinv
      cases data with
      | nil => exact absurd rfl h6
      | cons d0 data' =>
        refine ⟨by first | rfl | exact hf, by first | rfl | exact ht, fun hb => ?_, fun hb => Bool.noConfusion hb⟩
        refine ⟨d0, by simp, ?_, by simp [hc]⟩
        simp only [List.length_append, List.length_cons, List.length_nil]
        rw [scriptJoin_succ, hsc, hinv]
        simp [pagesOf]
    · obtain ⟨rfl, rfl⟩ := Prod.mk.injEq .. |>.mp h
      have hlt : it.pageIndex < it.page.length := by omega
      refine ⟨by first | rfl | exact hf, by first | rfl | exact ht, fun hb => ?_,
        fun hb => Bool.noConfusion hb⟩
      refine ⟨it.page[it.pageIndex], by simp [List.getElem?_eq_getElem hlt], ?_, by simp [hc]⟩
      have hdrop : it.page.drop it.pageIndex
          = it.page[it.pageIndex] :: it.page.drop (it.pageIndex + 1) :=
        List.drop_eq_getElem_cons hlt
      rw [hdrop] at hinv
      simpa using hinv

/-- drain-level invariant: however long an arbitrary scripted iterator is
driven, its yields are exactly an initial segment of the concatenation of
the pages its fetches returned, in order, and `count` equals the number of
yields — no item is ever yielded twice, whatever totals the backend
reports. -/
theorem scriptPrefixRun (script : Nat → Except Err (List T × Option PaginationInfo)) :
    ∀ (fuel : Nat) (it : Iterator (List T) T (List (Int × Int))) (zs : List T),
      it.fetcher = scriptFetcher script → it.transformer = Except.ok →
      scriptJoin script it.fetchState.length = zs ++ it.page.drop it.pageIndex →
      it.count = (zs.length : Int) →
      scriptJoin script (drain fuel it).2.fetchState.length
        = (zs ++ (drain fuel it).1) ++ (drain fuel it).2.page.drop (drain fuel it).2.pageIndex ∧
      (drain fuel it).2.count = ((zs.length : Int) + (drain fuel it).1.length) := by
  intro fuel
  induction fuel with
  | zero =>
    intro it zs hf ht hinv hc
    exact ⟨by simpa using hinv, by simpa using hc⟩
  | succ fuel ih =>
    intro it zs hf ht hinv hc
    rcases hnext : next it with ⟨b, it'⟩
    obtain ⟨hf', ht', htrue, hfalse⟩ := script_next_inv script it hf ht zs hinv hc b it' hnext
    cases b with
    | false =>
      rw [drain_succ_false fuel it it' hnext]
      obtain ⟨hi, hcnt⟩ := hfalse rfl
      exact ⟨by simpa using hi, by simpa using hcnt⟩
    | true =>
      obtain ⟨x, hx, hi, hcnt⟩ := htrue rfl
      rw [drain_succ_true fuel it it' x hnext hx]
      obtain ⟨hA, hB⟩ := ih it' (zs ++ [x]) hf' ht' hi
        (by rw [hcnt]; simp)
      refine ⟨?_, ?_⟩
      · simp only []
        rw [hA]
        simp
      · simp only []
        rw [hB]
        simp only [List.length_append, List.length_cons, List.length_nil]
        push_cast
        ring

/-- C2 (amended): the stored total is simply the most recent reported
`Total` — a later fetch reporting a smaller total overwrites it (see the
counterexample) — but the total is consulted only by the has-more-work
checks (`count >= total` in `Next`, `offset >= total` in `fetchNextPage`),
so an inconsistent total can only end the sequence early, never corrupt
it: for every scripted backend and every run length, the yielded items are
an initial segment of the concatenation of the pages actually fetched, in
order, and `count` equals the number of items yielded — nothing is
double-counted. -/
theorem c2_amended_total_only_gates_stopping
    (script : Nat → Except Err (List T × Option PaginationInfo)) (fuel : Nat) :
    (∃ tail, scriptJoin script (drain fuel (scriptIter script [])).2.fetchState.length
        = (drain fuel (scriptIter script [])).1 ++ tail) ∧
    (drain fuel (scriptIter script [])).2.count
      = ((drain fuel (scriptIter script [])).1.length : Int) := by
  obtain ⟨h1, h2⟩ := scriptPrefixRun script fuel (scriptIter script []) [] rfl rfl
    (by simp [scriptJoin, scriptIter, NewIterator]) rfl
  refine ⟨⟨(drain fuel (scriptIter script [])).2.page.drop
      (drain fuel (scriptIter script [])).2.pageIndex, by simpa using h1⟩, by simpa using h2⟩

/-! ### Generic step lemmas for `next` and `fetchNextPage` -/

/-- the step `Next` terminates when the known total has been consumed. -/
theorem next_stop_total (it : Iterator R T FS) (h1 : it.done = false) (h2 : it.err = none)
    (h3 : 0 ≤ it.total) (h4 : it.count ≥ it.total) :
    next it = (false, { it with done := true }) := by
  unfold next
  rw [if_neg (by simp [h1, h2]), if_pos ⟨h3, h4⟩]

/-- the step `Next` yields in place while the current page has unconsumed items. -/
theorem next_yield (it : Iterator R T FS) (h1 : it.done = false) (h2 : it.err = none)
    (h3 : ¬(0 ≤ it.total ∧ it.count ≥ it.total)) (h4 : it.pageIndex < it.page.length) :
    next it = (true, { it with
      current := it.page[it.pageIndex]?,
      pageIndex := it.pageIndex + 1,
      count := it.count + 1 }) := by
  unfold next
  rw [if_neg (by simp [h1, h2]), if_neg h3, if_neg (by omega)]

/-- the step `Next` defers to `fetchNextPage` when the current page is exhausted. -/
theorem next_fetch (it : Iterator R T FS) (h1 : it.done = false) (h2 : it.err = none)
    (h3 : ¬(0 ≤ it.total ∧ it.count ≥ it.total)) (h4 : it.pageIndex ≥ it.page.length) :
    next it = fetchNextPage it := by
  unfold next
  rw [if_neg (by simp [h1, h2]), if_neg h3, if_pos h4]

/-- the step `fetchNextPage` terminates without calling the fetcher once
`offset >= total` with a known total. -/
theorem fetchNextPage_stop_offset (it : Iterator R T FS)
    (hmp : ¬(0 < it.maxPages ∧ it.pagesLoaded ≥ it.maxPages))
    (hoff : 0 ≤ it.total ∧ it.offset ≥ it.total) :
    fetchNextPage it = (false, { it with done := true }) := by
  unfold fetchNextPage
  rw [if_neg hmp, if_pos hoff]

/-- a successful fetch of a decodable nonempty page installs it, updates
the total from its pagination if present, advances the offset by the items
actually returned, and yields the first item. -/
theorem fetchNextPage_ok (it : Iterator R T FS)
    (hmp : ¬(0 < it.maxPages ∧ it.pagesLoaded ≥ it.maxPages))
    (hoff : ¬(0 ≤ it.total ∧ it.offset ≥ it.total))
    (data : R) (pag : Option PaginationInfo) (fs : FS)
    (hfetch : it.fetcher it.fetchState it.offset it.limit = (Except.ok (data, pag), fs))
    (items : List T) (hitems : it.transformer data = Except.ok items)
    (hne : ¬(items.length = 0)) :
    fetchNextPage it = (true,
      { it with
        fetchState := fs,
        total := (match pag with | some p => p.total | none => it.total),
        page := items,
        pageIndex := 1,
        offset := it.offset + items.length,
        pagesLoaded := it.pagesLoaded + 1,
        current := items[0]?,
        count := it.count + 1 }) := by
  unfold fetchNextPage
  rw [if_neg hmp, if_neg hoff]
  simp [hfetch, hitems, hne]
  cases pag <;> rfl

/-- a successful fetch of an empty decodable page terminates the
sequence (after updating the total from its pagination). -/
theorem fetchNextPage_ok_empty (it : Iterator R T FS)
    (hmp : ¬(0 < it.maxPages ∧ it.pagesLoaded ≥ it.maxPages))
    (hoff : ¬(0 ≤ it.total ∧ it.offset ≥ it.total))
    (data : R) (pag : Option PaginationInfo) (fs : FS)
    (hfetch : it.fetcher it.fetchState it.offset it.limit = (Except.ok (data, pag), fs))
    (items : List T) (hitems : it.transformer data = Except.ok items)
    (hemp : items.length = 0) :
    fetchNextPage it = (false,
      { it with
        fetchState := fs,
        total := (match pag with | some p => p.total | none => it.total),
        done := true }) := by
  unfold fetchNextPage
  rw [if_neg hmp, if_neg hoff]
  simp [hfetch, hitems, hemp]
  cases pag <;> rfl

/-- a failing fetch records the error and stops. -/
theorem fetchNextPage_err (it : Iterator R T FS)
    (hmp : ¬(0 < it.maxPages ∧ it.pagesLoaded ≥ it.maxPages))
    (hoff : ¬(0 ≤ it.total ∧ it.offset ≥ it.total))
    (e : Err) (fs : FS)
    (hfetch : it.fetcher it.fetchState it.offset it.limit = (Except.error e, fs)) :
    fetchNextPage it = (false, { it with fetchState := fs, err := some e }) := by
  unfold fetchNextPage
  rw [if_neg hmp, if_neg hoff]
  simp [hfetch]

/-! ### C4/C7: full drain of a fixed collection from any starting offset -/

/-- sliceRun: from any mid-page state over the fixed-collection fetcher,
draining yields exactly the remaining items `src[a+i, N)` in order and
terminates with `done` set and no error. -/
theorem sliceRun (src : List T) (L : Int) (hL : 1 ≤ L) (o : Nat) :
    ∀ (F : Nat) (a i : Nat) (pl : Int) (cur : Option T),
      o ≤ a + i → 1 ≤ i → i ≤ ((src.drop a).take L.toNat).length →
      F = src.length - (a + i) + 1 →
      (drain F (mkSliceState src L o a i pl cur)).1 = src.drop (a + i) ∧
      (drain F (mkSliceState src L o a i pl cur)).2.err = none ∧
      (drain F (mkSliceState src L o a i pl cur)).2.done = true := by
  intro F
  induction F with
  | zero =>
    intro a i pl cur ho hi1 hi2 hF
    exact absurd hF (by omega)
  | succ F ih =>
    intro a i pl cur ho hi1 hi2 hF
    have hplen : ((src.drop a).take L.toNat).length = min L.toNat (src.length - a) := by
      simp [List.length_take, List.length_drop]
    have hi2' : i ≤ min L.toNat (src.length - a) := hplen ▸ hi2
    have haiN : a + i ≤ src.length := by omega
    by_cases hstop : ((a + i : Nat) : Int) - (o : Int) ≥ (src.length : Int)
    · have hnext : next (mkSliceState src L o a i pl cur)
          = (false, { mkSliceState src L o a i pl cur with done := true }) :=
        next_stop_total _ rfl rfl (Int.natCast_nonneg _) hstop
      rw [drain_succ_false F _ _ hnext]
      have hend : a + i = src.length := by omega
      refine ⟨?_, rfl, rfl⟩
      rw [hend, List.drop_length]
    · have hcont : ¬(0 ≤ (mkSliceState src L o a i pl cur).total ∧
          (mkSliceState src L o a i pl cur).count ≥ (mkSliceState src L o a i pl cur).total) := by
        intro hx
        exact hstop hx.2
      by_cases hyield : i < ((src.drop a).take L.toNat).length
      · -- yield the next item of the current page
        have hlt : a + i < src.length := by
          have := hplen ▸ hyield
          omega
        have hget : ((src.drop a).take L.toNat)[i]? = some src[a + i] := by
          rw [List.getElem?_take, if_pos (by omega : i < L.toNat), List.getElem?_drop,
            List.getElem?_eq_getElem hlt]
        have hnext : next (mkSliceState src L o a i pl cur)
            = (true, mkSliceState src L o a (i + 1) pl (some src[a + i])) := by
          rw [next_yield (mkSliceState src L o a i pl cur) rfl rfl hcont hyield]
          congr 1
          simp only [mkSliceState, Iterator.mk.injEq]
          and_intros <;> first
            | trivial
            | exact hget
            | omega
        rw [drain_succ_true F _ _ src[a + i] hnext rfl]
        obtain ⟨ih1, ih2, ih3⟩ := ih a (i + 1) pl (some src[a + i])
          (by omega) (by omega) (by omega) (by omega)
        have hidx : a + (i + 1) = (a + i) + 1 := by omega
        refine ⟨?_, ih2, ih3⟩
        simp only []
        rw [ih1, hidx, ← List.drop_eq_getElem_cons hlt]
      · -- current page exhausted
        have hc3 : (mkSliceState src L o a i pl cur).pageIndex
            ≥ (mkSliceState src L o a i pl cur).page.length := by
          simp only [mkSliceState]
          omega
        have hmp : ¬(0 < (mkSliceState src L o a i pl cur).maxPages ∧
            (mkSliceState src L o a i pl cur).pagesLoaded
              ≥ (mkSliceState src L o a i pl cur).maxPages) := by
          simp [mkSliceState]
        have hnf := next_fetch (mkSliceState src L o a i pl cur) rfl rfl hcont hc3
        have hieq : i = ((src.drop a).take L.toNat).length := by omega
        by_cases hN : a + i = src.length
        · -- offset has reached the total: terminate without fetching
          have hoff : 0 ≤ (mkSliceState src L o a i pl cur).total ∧
              (mkSliceState src L o a i pl cur).offset
                ≥ (mkSliceState src L o a i pl cur).total := by
            refine ⟨Int.natCast_nonneg _, ?_⟩
            simp only [mkSliceState]
            push_cast
            omega
          have hnext : next (mkSliceState src L o a i pl cur)
              = (false, { mkSliceState src L o a i pl cur with done := true }) := by
            rw [hnf]
            exact fetchNextPage_stop_offset _ hmp hoff
          rw [drain_succ_false F _ _ hnext]
          refine ⟨?_, rfl, rfl⟩
          rw [hN, List.drop_length]
        · -- fetch the next page and yield its first item
          have hqlt : a + i < src.length := by omega
          have hoff : ¬(0 ≤ (mkSliceState src L o a i pl cur).total ∧
              (mkSliceState src L o a i pl cur).offset
                ≥ (mkSliceState src L o a i pl cur).total) := by
            intro hx
            have := hx.2
            simp only [mkSliceState] at this
            push_cast at this
            omega
          have htoNat : (((a + ((src.drop a).take L.toNat).length : Nat) : Int)).toNat
              = a + i := by
            rw [Int.toNat_natCast]
            omega
          have hfetch : (mkSliceState src L o a i pl cur).fetcher
                (mkSliceState src L o a i pl cur).fetchState
                (mkSliceState src L o a i pl cur).offset
                (mkSliceState src L o a i pl cur).limit
              = (Except.ok ((src.drop (a + i)).take L.toNat,
                  some ⟨(src.length : Int), L,
                    ((a + ((src.drop a).take L.toNat).length : Nat) : Int)⟩), ()) := by
            simp only [mkSliceState, sliceFetcher, htoNat]
          have hplen' : ((src.drop (a + i)).take L.toNat).length
              = min L.toNat (src.length - (a + i)) := by
            simp [List.length_take, List.length_drop]
          have hlen0 : ¬(((src.drop (a + i)).take L.toNat).length = 0) := by omega
          have hget0 : ((src.drop (a + i)).take L.toNat)[0]? = some src[a + i] := by
            rw [List.getElem?_take, if_pos (by omega : 0 < L.toNat), List.getElem?_drop,
              Nat.add_zero, List.getElem?_eq_getElem hqlt]
          have hnext : next (mkSliceState src L o a i pl cur)
              = (true, mkSliceState src L o (a + i) 1 (pl + 1) (some src[a + i])) := by
            rw [hnf, fetchNextPage_ok (mkSliceState src L o a i pl cur) hmp hoff
              _ _ _ hfetch _ rfl hlen0]
            congr 1
            simp only [mkSliceState, Iterator.mk.injEq]
            and_intros <;> first
              | trivial
              | exact hget0
              | omega
          rw [drain_succ_true F _ _ src[a + i] hnext rfl]
          obtain ⟨ih1, ih2, ih3⟩ := ih (a + i) 1 (pl + 1) (some src[a + i])
            (by omega) (by omega) (by omega) (by omega)
          refine ⟨?_, ih2, ih3⟩
          simp only []
          rw [ih1, ← List.drop_eq_getElem_cons hqlt]

/-- sliceInit: draining a freshly constructed iterator over the fixed
collection `src` with page size `L >= 1` and starting offset `o <= N`
yields exactly `src[o, N)` in order and terminates cleanly. -/
theorem sliceInit (src : List T) (L : Int) (hL : 1 ≤ L) (o : Nat) (ho : o ≤ src.length) :
    (drain (src.length - o + 1) (mkSliceInit src L o)).1 = src.drop o ∧
    (drain (src.length - o + 1) (mkSliceInit src L o)).2.err = none ∧
    (drain (src.length - o + 1) (mkSliceInit src L o)).2.done = true := by
  have hcont : ¬(0 ≤ (mkSliceInit src L o).total ∧
      (mkSliceInit src L o).count ≥ (mkSliceInit src L o).total) := by
    simp [mkSliceInit]
  have hc3 : (mkSliceInit src L o).pageIndex ≥ (mkSliceInit src L o).page.length := by
    simp [mkSliceInit]
  have hmp : ¬(0 < (mkSliceInit src L o).maxPages ∧
      (mkSliceInit src L o).pagesLoaded ≥ (mkSliceInit src L o).maxPages) := by
    simp [mkSliceInit]
  have hoff : ¬(0 ≤ (mkSliceInit src L o).total ∧
      (mkSliceInit src L o).offset ≥ (mkSliceInit src L o).total) := by
    simp [mkSliceInit]
  have hnf := next_fetch (mkSliceInit src L o) rfl rfl hcont hc3
  have hfetch : (mkSliceInit src L o).fetcher (mkSliceInit src L o).fetchState
        (mkSliceInit src L o).offset (mkSliceInit src L o).limit
      = (Except.ok ((src.drop o).take L.toNat,
          some ⟨(src.length : Int), L, ((o : Nat) : Int)⟩), ()) := by
    simp only [mkSliceInit, sliceFetcher, Int.toNat_natCast]
  have hplen : ((src.drop o).take L.toNat).length = min L.toNat (src.length - o) := by
    simp [List.length_take, List.length_drop]
  by_cases hoN : o = src.length
  · -- the first fetch returns the empty final page and terminates
    have hemp : ((src.drop o).take L.toNat).length = 0 := by omega
    have hnext : next (mkSliceInit src L o) = (false,
        { mkSliceInit src L o with
          fetchState := (),
          total := (match (some (⟨(src.length : Int), L,
            ((o : Nat) : Int)⟩ : PaginationInfo)) with
            | some p => p.total
            | none => (mkSliceInit src L o).total),
          done := true }) := by
      rw [hnf]
      exact fetchNextPage_ok_empty _ hmp hoff _ _ _ hfetch _ rfl hemp
    rw [drain_succ_false _ _ _ hnext]
    refine ⟨?_, rfl, rfl⟩
    rw [hoN, List.drop_length]
  · -- the first fetch installs the first page and yields its head
    have ho' : o < src.length := by omega
    have hlen0 : ¬(((src.drop o).take L.toNat).length = 0) := by omega
    have hget0 : ((src.drop o).take L.toNat)[0]? = some src[o] := by
      rw [List.getElem?_take, if_pos (by omega : 0 < L.toNat), List.getElem?_drop,
        Nat.add_zero, List.getElem?_eq_getElem ho']
    have hnext : next (mkSliceInit src L o)
        = (true, mkSliceState src L o o 1 1 (some src[o])) := by
      rw [hnf, fetchNextPage_ok (mkSliceInit src L o) hmp hoff _ _ _ hfetch _ rfl hlen0]
      congr 1
      simp only [mkSliceInit, mkSliceState, Iterator.mk.injEq]
      and_intros <;> first
        | trivial
        | exact hget0
        | omega
    have hfuel : src.length - o + 1 = (src.length - o) + 1 := rfl
    rw [hfuel, drain_succ_true _ _ _ src[o] hnext rfl]
    obtain ⟨ih1, ih2, ih3⟩ := sliceRun src L hL o (src.length - o) o 1 1 (some src[o])
      (by omega) (by omega) (by omega) (by omega)
    refine ⟨?_, ih2, ih3⟩
    simp only []
    rw [ih1, ← List.drop_eq_getElem_cons ho']

/-- C4 (confirmed): for the fetch function backed by the fixed collection
`src` (serving `src[offset, min(offset+limit, N))` with `total = N`) and
any page size `limit` in `[1, N]`, fully draining the sequence yields
exactly the `N` items in their original order, `Err()` is nil afterwards,
and the terminated sequence is a fixpoint of `Next`. -/
theorem c4_fixed_collection_full_drain (src : List T) (L : Int)
    (h1 : 1 ≤ L) (h2 : L ≤ (src.length : Int)) :
    (drain (src.length + 1) (sliceIter src [WithLimit L])).1 = src ∧
    (drain (src.length + 1) (sliceIter src [WithLimit L])).2.err = none ∧
    (drain (src.length + 1) (sliceIter src [WithLimit L])).2.done = true ∧
    next (drain (src.length + 1) (sliceIter src [WithLimit L])).2
      = (false, (drain (src.length + 1) (sliceIter src [WithLimit L])).2) := by
  have heq : sliceIter src [WithLimit L] = mkSliceInit src L 0 := rfl
  have h := sliceInit src L h1 0 (Nat.zero_le _)
  rw [Nat.sub_zero] at h
  rw [heq]
  obtain ⟨ha, hb, hc⟩ := h
  exact ⟨by simpa using ha, hb, hc, next_stopped _ (Or.inl hc)⟩

/-- Witness for C4: the collection `[1,2,3,4,5]` with page size `2`
drains to `[1,2,3,4,5]` with no error. -/
theorem c4_fixed_collection_full_drain_witness :
    (drain 6 (sliceIter [1, 2, 3, 4, 5] [WithLimit 2])).1 = [1, 2, 3, 4, 5] ∧
    (drain 6 (sliceIter [1, 2, 3, 4, 5] [WithLimit 2])).2.err = none :=
  ⟨(c4_fixed_collection_full_drain [1, 2, 3, 4, 5] 2 (by decide) (by decide)).1,
   (c4_fixed_collection_full_drain [1, 2, 3, 4, 5] 2 (by decide) (by decide)).2.1⟩

/-- C7 (confirmed): over the same fixed-collection fetch function, a
sequence constructed with starting offset `o` (`0 <= o <= N`, default page
size 100) yields exactly the items at positions `[o, N)` in order, with no
error, and terminates as a fixpoint of `Next`. -/
theorem c7_offset_resume (src : List T) (o : Nat) (ho : o ≤ src.length) :
    (drain (src.length - o + 1) (sliceIter src [WithOffset (o : Int)])).1 = src.drop o ∧
    (drain (src.length - o + 1) (sliceIter src [WithOffset (o : Int)])).2.err = none ∧
    (drain (src.length - o + 1) (sliceIter src [WithOffset (o : Int)])).2.done = true ∧
    next (drain (src.length - o + 1) (sliceIter src [WithOffset (o : Int)])).2
      = (false, (drain (src.length - o + 1) (sliceIter src [WithOffset (o : Int)])).2) := by
  have heq : sliceIter src [WithOffset (o : Int)] = mkSliceInit src 100 o := rfl
  have h := sliceInit src 100 (by norm_num) o ho
  rw [heq]
  obtain ⟨ha, hb, hc⟩ := h
  exact ⟨ha, hb, hc, next_stopped _ (Or.inl hc)⟩

/-- Witness for C7: starting `[1,2,3,4,5]` at offset `3` yields `[4, 5]`. -/
theorem c7_offset_resume_witness :
    (drain 3 (sliceIter [1, 2, 3, 4, 5] [WithOffset 3])).1 = [4, 5] ∧
    (drain 3 (sliceIter [1, 2, 3, 4, 5] [WithOffset 3])).2.err = none :=
  ⟨(c7_offset_resume [1, 2, 3, 4, 5] 3 (by decide)).1,
   (c7_offset_resume [1, 2, 3, 4, 5] 3 (by decide)).2.1⟩

/-! ### C1 (amended): export sequences stream chunks in order; with
one-item chunks every item is yielded -/

/-- exportRun: from the mid-state after `j` one-item chunks, draining
fetches the remaining chunks in the order reported by the ready status,
yields their items, and terminates with no error once `count` reaches the
chunk count; the instrumented log then records exactly the chunk
identifiers `cs`, in order. -/
theorem exportRun (b : ExportBackend R T) (u : String) (hu : u ≠ "") (s : ExportStatus)
    (f : Int → R) (g : Int → T) (cs : List Int) (hcs : s.chunksAvailable = cs)
    (hchunk : ∀ id ∈ cs, b.chunk u id = Except.ok (f id))
    (hdec : ∀ id ∈ cs, b.decode (f id) = Except.ok [g id]) :
    ∀ (F j : Nat) (x : T), 1 ≤ j → j ≤ cs.length → F = cs.length - j + 1 →
      (drain F (mkExportMid b u s cs j x)).1 = (cs.drop j).map g ∧
      (drain F (mkExportMid b u s cs j x)).2.err = none ∧
      (drain F (mkExportMid b u s cs j x)).2.done = true ∧
      (drain F (mkExportMid b u s cs j x)).2.fetchState.chunkCalls = cs := by
  intro F
  induction F with
  | zero =>
    intro j x hj1 hj2 hF
    exact absurd hF (by omega)
  | succ F ih =>
    intro j x hj1 hj2 hF
    by_cases hjk : j = cs.length
    · -- the known total (the chunk count) has been consumed: stop
      have hnext : next (mkExportMid b u s cs j x)
          = (false, { mkExportMid b u s cs j x with done := true }) :=
        next_stop_total _ rfl rfl (Int.natCast_nonneg _) (by simp [mkExportMid, hjk])
      rw [drain_succ_false _ _ _ hnext]
      refine ⟨by rw [hjk, List.drop_length]; rfl, rfl, rfl, ?_⟩
      simp [mkExportMid, hjk]
    · have hjk' : j < cs.length := by omega
      have hcont : ¬(0 ≤ (mkExportMid b u s cs j x).total ∧
          (mkExportMid b u s cs j x).count ≥ (mkExportMid b u s cs j x).total) := by
        simp only [mkExportMid]
        intro hx
        have := hx.2
        omega
      have hc3 : (mkExportMid b u s cs j x).pageIndex
          ≥ (mkExportMid b u s cs j x).page.length := by
        simp [mkExportMid]
      have hmp : ¬(0 < (mkExportMid b u s cs j x).maxPages ∧
          (mkExportMid b u s cs j x).pagesLoaded ≥ (mkExportMid b u s cs j x).maxPages) := by
        simp [mkExportMid]
      have hoff : ¬(0 ≤ (mkExportMid b u s cs j x).total ∧
          (mkExportMid b u s cs j x).offset ≥ (mkExportMid b u s cs j x).total) := by
        simp only [mkExportMid]
        intro hx
        have := hx.2
        omega
      have hguard : ¬(((j : Nat) : Int) ≥ ((s.chunksAvailable.length : Nat) : Int)) := by
        rw [hcs]
        omega
      have hgetj : ((s.chunksAvailable[(((j : Nat) : Int)).toNat]?).getD 0) = cs[j] := by
        rw [hcs, Int.toNat_natCast, List.getElem?_eq_getElem hjk']
        rfl
      have hmem : cs[j] ∈ cs := List.getElem_mem hjk'
      have hfetch : (mkExportMid b u s cs j x).fetcher (mkExportMid b u s cs j x).fetchState
            (mkExportMid b u s cs j x).offset (mkExportMid b u s cs j x).limit
          = (Except.ok (f cs[j], some ⟨((s.chunksAvailable.length : Nat) : Int), 0, 0⟩),
              ⟨u, some s, ((j : Nat) : Int) + 1, 1, 1, cs.take j ++ [cs[j]]⟩) := by
        simp only [mkExportMid, assetsFetcher, assetsFetchReady, assetsFetchChunks,
          if_neg hu, if_neg hguard, hgetj, hchunk cs[j] hmem, hdec cs[j] hmem]
      have htake : cs.take j ++ [cs[j]] = cs.take (j + 1) := by
        rw [List.take_succ, List.getElem?_eq_getElem hjk']
        rfl
      have hnext : next (mkExportMid b u s cs j x)
          = (true, mkExportMid b u s cs (j + 1) (g cs[j])) := by
        rw [next_fetch _ rfl rfl hcont hc3,
          fetchNextPage_ok _ hmp hoff _ _ _ hfetch _ (hdec cs[j] hmem) (by simp)]
        congr 1
        simp only [mkExportMid, Iterator.mk.injEq, ExportFetchState.mk.injEq, hcs,
          List.length_cons, List.length_nil]
        and_intros <;> first
          | trivial
          | exact htake
          | omega
      rw [drain_succ_true _ _ _ (g cs[j]) hnext rfl]
      obtain ⟨ih1, ih2, ih3, ih4⟩ := ih (j + 1) (g cs[j]) (by omega) (by omega) (by omega)
      refine ⟨?_, ih2, ih3, ih4⟩
      simp only []
      rw [ih1, List.drop_eq_getElem_cons hjk', List.map_cons]

/-- vulnsRun: the vulns analogue of `exportRun`: from the mid-state after
`j` one-item chunks, draining
fetches the remaining chunks in the order reported by the ready status,
yields their items, and terminates with no error once `count` reaches the
chunk count; the instrumented log then records exactly the chunk
identifiers `cs`, in order. -/
theorem vulnsRun (b : ExportBackend R T) (u : String) (hu : u ≠ "") (s : ExportStatus)
    (f : Int → R) (g : Int → T) (cs : List Int) (hcs : s.chunksAvailable = cs)
    (hchunk : ∀ id ∈ cs, b.chunk u id = Except.ok (f id))
    (hdec : ∀ id ∈ cs, b.decode (f id) = Except.ok [g id]) :
    ∀ (F j : Nat) (x : T), 1 ≤ j → j ≤ cs.length → F = cs.length - j + 1 →
      (drain F (mkVulnsMid b u s cs j x)).1 = (cs.drop j).map g ∧
      (drain F (mkVulnsMid b u s cs j x)).2.err = none ∧
      (drain F (mkVulnsMid b u s cs j x)).2.done = true ∧
      (drain F (mkVulnsMid b u s cs j x)).2.fetchState.chunkCalls = cs := by
  intro F
  induction F with
  | zero =>
    intro j x hj1 hj2 hF
    exact absurd hF (by omega)
  | succ F ih =>
    intro j x hj1 hj2 hF
    by_cases hjk : j = cs.length
    · -- the known total (the chunk count) has been consumed: stop
      have hnext : next (mkVulnsMid b u s cs j x)
          = (false, { mkVulnsMid b u s cs j x with done := true }) :=
        next_stop_total _ rfl rfl (Int.natCast_nonneg _) (by simp [mkVulnsMid, hjk])
      rw [drain_succ_false _ _ _ hnext]
      refine ⟨by rw [hjk, List.drop_length]; rfl, rfl, rfl, ?_⟩
      simp [mkVulnsMid, hjk]
    · have hjk' : j < cs.length := by omega
      have hcont : ¬(0 ≤ (mkVulnsMid b u s cs j x).total ∧
          (mkVulnsMid b u s cs j x).count ≥ (mkVulnsMid b u s cs j x).total) := by
        simp only [mkVulnsMid]
        intro hx
        have := hx.2
        omega
      have hc3 : (mkVulnsMid b u s cs j x).pageIndex
          ≥ (mkVulnsMid b u s cs j x).page.length := by
        simp [mkVulnsMid]
      have hmp : ¬(0 < (mkVulnsMid b u s cs j x).maxPages ∧
          (mkVulnsMid b u s cs j x).pagesLoaded ≥ (mkVulnsMid b u s cs j x).maxPages) := by
        simp [mkVulnsMid]
      have hoff : ¬(0 ≤ (mkVulnsMid b u s cs j x).total ∧
          (mkVulnsMid b u s cs j x).offset ≥ (mkVulnsMid b u s cs j x).total) := by
        simp only [mkVulnsMid]
        intro hx
        have := hx.2
        omega
      have hguard : ¬(((j : Nat) : Int) ≥ ((s.chunksAvailable.length : Nat) : Int)) := by
        rw [hcs]
        omega
      have hgetj : ((s.chunksAvailable[(((j : Nat) : Int)).toNat]?).getD 0) = cs[j] := by
        rw [hcs, Int.toNat_natCast, List.getElem?_eq_getElem hjk']
        rfl
      have hmem : cs[j] ∈ cs := List.getElem_mem hjk'
      have hfetch : (mkVulnsMid b u s cs j x).fetcher (mkVulnsMid b u s cs j x).fetchState
            (mkVulnsMid b u s cs j x).offset (mkVulnsMid b u s cs j x).limit
          = (Except.ok (f cs[j], some ⟨((s.chunksAvailable.length : Nat) : Int), 0, 0⟩),
              ⟨u, some s, ((j : Nat) : Int) + 1, 1, 1, cs.take j ++ [cs[j]]⟩) := by
        simp only [mkVulnsMid, vulnsFetcher, vulnsFetchReady, vulnsFetchChunks,
          if_neg hu, if_neg hguard, hgetj, hchunk cs[j] hmem]
      have htake : cs.take j ++ [cs[j]] = cs.take (j + 1) := by
        rw [List.take_succ, List.getElem?_eq_getElem hjk']
        rfl
      have hnext : next (mkVulnsMid b u s cs j x)
          = (true, mkVulnsMid b u s cs (j + 1) (g cs[j])) := by
        rw [next_fetch _ rfl rfl hcont hc3,
          fetchNextPage_ok _ hmp hoff _ _ _ hfetch _ (hdec cs[j] hmem) (by simp)]
        congr 1
        simp only [mkVulnsMid, Iterator.mk.injEq, ExportFetchState.mk.injEq, hcs,
          List.length_cons, List.length_nil]
        and_intros <;> first
          | trivial
          | exact htake
          | omega
      rw [drain_succ_true _ _ _ (g cs[j]) hnext rfl]
      obtain ⟨ih1, ih2, ih3, ih4⟩ := ih (j + 1) (g cs[j]) (by omega) (by omega) (by omega)
      refine ⟨?_, ih2, ih3, ih4⟩
      simp only []
      rw [ih1, List.drop_eq_getElem_cons hjk', List.map_cons]

/-- assetsDrainOneItemChunks: the export-backed assets sequence submits once, waits
once, and streams the available chunks in exactly the order the ready
status reports them (the instrumented log of requested chunk identifiers
equals `ChunksAvailable`); because the fetcher reports the number of
chunks as `PaginationInfo.Total` while the iterator counts items against
it, the sequence yields every decoded item precisely in the case the
claim's counterexample excludes — when every chunk decodes to exactly one
item — and then terminates cleanly with no error after `count` reaches the
chunk count (for zero chunks, via the explicit zero-item page). -/
theorem assetsDrainOneItemChunks (b : ExportBackend R T)
    (u : String) (hu : u ≠ "") (s : ExportStatus) (f : Int → R) (g : Int → T)
    (cs : List Int) (hcs : s.chunksAvailable = cs)
    (hsub : b.submit 0 = Except.ok u) (hwait : b.wait 0 = Except.ok s)
    (hchunk : ∀ id ∈ cs, b.chunk u id = Except.ok (f id))
    (hdec : ∀ id ∈ cs, b.decode (f id) = Except.ok [g id])
    (hempty : b.decode b.emptyRaw = Except.ok []) :
    (drain (cs.length + 1) (AssetsIterator b)).1 = cs.map g ∧
    (drain (cs.length + 1) (AssetsIterator b)).2.err = none ∧
    (drain (cs.length + 1) (AssetsIterator b)).2.done = true ∧
    (drain (cs.length + 1) (AssetsIterator b)).2.fetchState.chunkCalls = cs ∧
    next (drain (cs.length + 1) (AssetsIterator b)).2
      = (false, (drain (cs.length + 1) (AssetsIterator b)).2) := by
  have hcont : ¬(0 ≤ (AssetsIterator b).total ∧
      (AssetsIterator b).count ≥ (AssetsIterator b).total) := by
    simp [AssetsIterator, NewIterator, initExportState]
  have hc3 : (AssetsIterator b).pageIndex ≥ (AssetsIterator b).page.length := by
    simp [AssetsIterator, NewIterator, initExportState]
  have hmp : ¬(0 < (AssetsIterator b).maxPages ∧
      (AssetsIterator b).pagesLoaded ≥ (AssetsIterator b).maxPages) := by
    simp [AssetsIterator, NewIterator, initExportState]
  have hoff : ¬(0 ≤ (AssetsIterator b).total ∧
      (AssetsIterator b).offset ≥ (AssetsIterator b).total) := by
    simp [AssetsIterator, NewIterator, initExportState]
  cases cs with
  | nil =>
    have hguard : ((0 : Int) ≥ ((s.chunksAvailable.length : Nat) : Int)) := by
      rw [hcs]
      simp
    have hfetch : (AssetsIterator b).fetcher (AssetsIterator b).fetchState
          (AssetsIterator b).offset (AssetsIterator b).limit
        = (Except.ok (b.emptyRaw, some ⟨0, 0, 0⟩), ⟨u, some s, 0, 1, 1, []⟩) := by
      simp [AssetsIterator, NewIterator, initExportState,
        assetsFetcher, assetsFetchReady, assetsFetchChunks, hsub, hwait, hguard]
    have hnext : next (AssetsIterator b) = (false,
        { AssetsIterator b with
          fetchState := ⟨u, some s, 0, 1, 1, []⟩,
          total := (match (some (⟨0, 0, 0⟩ : PaginationInfo)) with
            | some p => p.total
            | none => (AssetsIterator b).total),
          done := true }) := by
      rw [next_fetch _ rfl rfl hcont hc3]
      exact fetchNextPage_ok_empty _ hmp hoff _ _ _ hfetch _ hempty rfl
    rw [show (([] : List Int).length + 1) = 0 + 1 from rfl, drain_succ_false _ _ _ hnext]
    exact ⟨rfl, rfl, rfl, rfl, next_stopped _ (Or.inl rfl)⟩
  | cons c0 cs' =>
    have hjk' : (0 : Nat) < (c0 :: cs').length := by simp
    have hguard : ¬(((0 : Nat) : Int) ≥ (((c0 :: cs').length : Nat) : Int)) := by
      simp
    have hmem : c0 ∈ c0 :: cs' := List.mem_cons_self c0 cs'
    have hfetch : (AssetsIterator b).fetcher (AssetsIterator b).fetchState
          (AssetsIterator b).offset (AssetsIterator b).limit
        = (Except.ok (f c0, some ⟨((s.chunksAvailable.length : Nat) : Int), 0, 0⟩),
            ⟨u, some s, 1, 1, 1, [c0]⟩) := by
      simp [AssetsIterator, NewIterator, initExportState,
        assetsFetcher, assetsFetchReady, assetsFetchChunks, hsub, hwait, hcs,
        hchunk c0 hmem, hdec c0 hmem]
    have hnext : next (AssetsIterator b)
        = (true, mkExportMid b u s (c0 :: cs') 1 (g c0)) := by
      rw [next_fetch _ rfl rfl hcont hc3,
        fetchNextPage_ok _ hmp hoff _ _ _ hfetch _ (hdec c0 hmem) (by simp)]
      congr 1
      simp only [AssetsIterator, NewIterator, initExportState, List.foldl_nil,
        mkExportMid, Iterator.mk.injEq, ExportFetchState.mk.injEq, hcs,
        List.length_cons, List.length_nil]
      and_intros <;> first
        | trivial
        | omega
    rw [show ((c0 :: cs').length + 1) = ((c0 :: cs').length) + 1 from rfl,
      drain_succ_true _ _ _ (g c0) hnext rfl]
    obtain ⟨ih1, ih2, ih3, ih4⟩ := exportRun b u hu s f g (c0 :: cs') hcs hchunk hdec
      ((c0 :: cs').length) 1 (g c0) (by omega) (by simp) (by simp)
    refine ⟨?_, ih2, ih3, ih4, ?_⟩
    · simp only []
      rw [ih1]
      simp
    · simp only []
      exact next_stopped _ (Or.inl ih3)

/-- vulnsDrainOneItemChunks: the vulns analogue of
`assetsDrainOneItemChunks` — the export-backed vulnerabilities sequence submits once, waits
once, and streams the available chunks in exactly the order the ready
status reports them (the instrumented log of requested chunk identifiers
equals `ChunksAvailable`); because the fetcher reports the number of
chunks as `PaginationInfo.Total` while the iterator counts items against
it, the sequence yields every decoded item precisely in the case the
claim's counterexample excludes — when every chunk decodes to exactly one
item — and then terminates cleanly with no error after `count` reaches the
chunk count (for zero chunks, via the explicit zero-item page). -/
theorem vulnsDrainOneItemChunks (b : ExportBackend R T)
    (u : String) (hu : u ≠ "") (s : ExportStatus) (f : Int → R) (g : Int → T)
    (cs : List Int) (hcs : s.chunksAvailable = cs)
    (hsub : b.submit 0 = Except.ok u) (hwait : b.wait 0 = Except.ok s)
    (hchunk : ∀ id ∈ cs, b.chunk u id = Except.ok (f id))
    (hdec : ∀ id ∈ cs, b.decode (f id) = Except.ok [g id])
    (hempty : b.decode b.emptyRaw = Except.ok []) :
    (drain (cs.length + 1) (VulnsIterator b)).1 = cs.map g ∧
    (drain (cs.length + 1) (VulnsIterator b)).2.err = none ∧
    (drain (cs.length + 1) (VulnsIterator b)).2.done = true ∧
    (drain (cs.length + 1) (VulnsIterator b)).2.fetchState.chunkCalls = cs ∧
    next (drain (cs.length + 1) (VulnsIterator b)).2
      = (false, (drain (cs.length + 1) (VulnsIterator b)).2) := by
  have hcont : ¬(0 ≤ (VulnsIterator b).total ∧
      (VulnsIterator b).count ≥ (VulnsIterator b).total) := by
    simp [VulnsIterator, NewIterator, initExportState]
  have hc3 : (VulnsIterator b).pageIndex ≥ (VulnsIterator b).page.length := by
    simp [VulnsIterator, NewIterator, initExportState]
  have hmp : ¬(0 < (VulnsIterator b).maxPages ∧
      (VulnsIterator b).pagesLoaded ≥ (VulnsIterator b).maxPages) := by
    simp [VulnsIterator, NewIterator, initExportState]
  have hoff : ¬(0 ≤ (VulnsIterator b).total ∧
      (VulnsIterator b).offset ≥ (VulnsIterator b).total) := by
    simp [VulnsIterator, NewIterator, initExportState]
  cases cs with
  | nil =>
    have hguard : ((0 : Int) ≥ ((s.chunksAvailable.length : Nat) : Int)) := by
      rw [hcs]
      simp
    have hfetch : (VulnsIterator b).fetcher (VulnsIterator b).fetchState
          (VulnsIterator b).offset (VulnsIterator b).limit
        = (Except.ok (b.emptyRaw, some ⟨0, 0, 0⟩), ⟨u, some s, 0, 1, 1, []⟩) := by
      simp [VulnsIterator, NewIterator, initExportState,
        vulnsFetcher, vulnsFetchReady, vulnsFetchChunks, hsub, hwait, hguard]
    have hnext : next (VulnsIterator b) = (false,
        { VulnsIterator b with
          fetchState := ⟨u, some s, 0, 1, 1, []⟩,
          total := (match (some (⟨0, 0, 0⟩ : PaginationInfo)) with
            | some p => p.total
            | none => (VulnsIterator b).total),
          done := true }) := by
      rw [next_fetch _ rfl rfl hcont hc3]
      exact fetchNextPage_ok_empty _ hmp hoff _ _ _ hfetch _ hempty rfl
    rw [show (([] : List Int).length + 1) = 0 + 1 from rfl, drain_succ_false _ _ _ hnext]
    exact ⟨rfl, rfl, rfl, rfl, next_stopped _ (Or.inl rfl)⟩
  | cons c0 cs' =>
    have hjk' : (0 : Nat) < (c0 :: cs').length := by simp
    have hguard : ¬(((0 : Nat) : Int) ≥ (((c0 :: cs').length : Nat) : Int)) := by
      simp
    have hmem : c0 ∈ c0 :: cs' := List.mem_cons_self c0 cs'
    have hfetch : (VulnsIterator b).fetcher (VulnsIterator b).fetchState
          (VulnsIterator b).offset (VulnsIterator b).limit
        = (Except.ok (f c0, some ⟨((s.chunksAvailable.length : Nat) : Int), 0, 0⟩),
            ⟨u, some s, 1, 1, 1, [c0]⟩) := by
      simp [VulnsIterator, NewIterator, initExportState,
        vulnsFetcher, vulnsFetchReady, vulnsFetchChunks, hsub, hwait, hcs,
        hchunk c0 hmem]
    have hnext : next (VulnsIterator b)
        = (true, mkVulnsMid b u s (c0 :: cs') 1 (g c0)) := by
      rw [next_fetch _ rfl rfl hcont hc3,
        fetchNextPage_ok _ hmp hoff _ _ _ hfetch _ (hdec c0 hmem) (by simp)]
      congr 1
      simp only [VulnsIterator, NewIterator, initExportState, List.foldl_nil,
        mkVulnsMid, Iterator.mk.injEq, ExportFetchState.mk.injEq, hcs,
        List.length_cons, List.length_nil]
      and_intros <;> first
        | trivial
        | omega
    rw [show ((c0 :: cs').length + 1) = ((c0 :: cs').length) + 1 from rfl,
      drain_succ_true _ _ _ (g c0) hnext rfl]
    obtain ⟨ih1, ih2, ih3, ih4⟩ := vulnsRun b u hu s f g (c0 :: cs') hcs hchunk hdec
      ((c0 :: cs').length) 1 (g c0) (by omega) (by simp) (by simp)
    refine ⟨?_, ih2, ih3, ih4, ?_⟩
    · simp only []
      rw [ih1]
      simp
    · simp only []
      exact next_stopped _ (Or.inl ih3)

/-- C1 (amended): an export-backed sequence — AssetsIterator and
VulnsIterator alike — submits once, waits once, and streams the available
chunks in exactly the order the ready status reports them (the
instrumented log of requested chunk identifiers equals `ChunksAvailable`);
because the fetcher reports the number of chunks as `PaginationInfo.Total`
while the iterator counts items against it, the sequence yields every
decoded item precisely in the case the claim's counterexample excludes —
when every chunk decodes to exactly one item — and then terminates cleanly
with no error after `count` reaches the chunk count (for zero chunks, via
the explicit zero-item page). -/
theorem c1_amended_chunks_in_order_one_item_chunks (b : ExportBackend R T)
    (u : String) (hu : u ≠ "") (s : ExportStatus) (f : Int → R) (g : Int → T)
    (cs : List Int) (hcs : s.chunksAvailable = cs)
    (hsub : b.submit 0 = Except.ok u) (hwait : b.wait 0 = Except.ok s)
    (hchunk : ∀ id ∈ cs, b.chunk u id = Except.ok (f id))
    (hdec : ∀ id ∈ cs, b.decode (f id) = Except.ok [g id])
    (hempty : b.decode b.emptyRaw = Except.ok []) :
    ((drain (cs.length + 1) (AssetsIterator b)).1 = cs.map g ∧
     (drain (cs.length + 1) (AssetsIterator b)).2.err = none ∧
     (drain (cs.length + 1) (AssetsIterator b)).2.done = true ∧
     (drain (cs.length + 1) (AssetsIterator b)).2.fetchState.chunkCalls = cs ∧
     next (drain (cs.length + 1) (AssetsIterator b)).2
       = (false, (drain (cs.length + 1) (AssetsIterator b)).2)) ∧
    ((drain (cs.length + 1) (VulnsIterator b)).1 = cs.map g ∧
     (drain (cs.length + 1) (VulnsIterator b)).2.err = none ∧
     (drain (cs.length + 1) (VulnsIterator b)).2.done = true ∧
     (drain (cs.length + 1) (VulnsIterator b)).2.fetchState.chunkCalls = cs ∧
     next (drain (cs.length + 1) (VulnsIterator b)).2
       = (false, (drain (cs.length + 1) (VulnsIterator b)).2)) :=
  ⟨assetsDrainOneItemChunks b u hu s f g cs hcs hsub hwait hchunk hdec hempty,
   vulnsDrainOneItemChunks b u hu s f g cs hcs hsub hwait hchunk hdec hempty⟩

/-- c1wbackend: a three-chunk backend with one item per chunk (the item is
the chunk identifier). -/
def c1wbackend : ExportBackend (List Nat) Nat where
  submit := fun _ => Except.ok "u"
  wait := fun _ => Except.ok ⟨"FINISHED", [1, 2, 3]⟩
  chunk := fun _ id => Except.ok [id.toNat]
  decode := fun l => Except.ok l
  emptyRaw := []

/-- Witness for the amended C1: chunks `[1, 2, 3]` with one item each are
streamed in order and every item is yielded, by both the assets and the
vulns iterator. -/
theorem c1_amended_chunks_in_order_one_item_chunks_witness :
    (drain 4 (AssetsIterator c1wbackend)).1 = [1, 2, 3] ∧
    (drain 4 (AssetsIterator c1wbackend)).2.err = none ∧
    (drain 4 (AssetsIterator c1wbackend)).2.fetchState.chunkCalls = [1, 2, 3] ∧
    (drain 4 (VulnsIterator c1wbackend)).1 = [1, 2, 3] ∧
    (drain 4 (VulnsIterator c1wbackend)).2.err = none ∧
    (drain 4 (VulnsIterator c1wbackend)).2.fetchState.chunkCalls = [1, 2, 3] := by
  have h := c1_amended_chunks_in_order_one_item_chunks c1wbackend "u" (by decide)
    ⟨"FINISHED", [1, 2, 3]⟩ (fun id => [id.toNat]) (fun id => id.toNat) [1, 2, 3] rfl rfl rfl
    (fun id _ => rfl) (fun id _ => rfl) rfl
  exact ⟨h.1.1, h.1.2.1, h.1.2.2.2.1, h.2.1, h.2.2.1, h.2.2.2.2.1⟩

end Gotenable
